import Mathlib

/-!
Verification of the libcalico datastore adapter (`node/adapter/datastore.py`).

The Python module is shallowly embedded below.  Machine-level facts about the
external `netaddr` library (string forms of addresses and networks, equality
of `IPNetwork` values, truthiness) are modelled explicitly; every modelling
choice is recorded in the doc comment of the corresponding definition.
-/

set_option autoImplicit false

namespace Libcalico

/-! ## Decimal / hexadecimal digit strings

`netaddr` prints IPv4 octets in decimal and IPv6 groups in (lowercase)
hexadecimal.  We build a small executable print/parse theory for both bases.
-/

/-- The character printed for digit `d` (decimal `0`-`9`, then lowercase
hexadecimal `a`-`f`). -/
def digitChar (d : Nat) : Char :=
  if d < 10 then Char.ofNat (48 + d) else Char.ofNat (87 + d)

/-- Numeric value of a digit character (inverse of `digitChar` on digits). -/
def digitVal (c : Char) : Nat :=
  if 97 ≤ c.toNat then c.toNat - 87 else c.toNat - 48

/-- Whether `c` is a valid digit character for base `b` (`b ≤ 16`):
`0`-`9` or lowercase `a`-`f`, with value below `b`. -/
def isDigitB (b : Nat) (c : Char) : Bool :=
  (48 ≤ c.toNat && c.toNat ≤ 57 && c.toNat - 48 < b) ||
  (97 ≤ c.toNat && c.toNat ≤ 102 && c.toNat - 87 < b)

/-- Little-endian base-`b` digits of `n`, with explicit fuel (structural
recursion so that the kernel can evaluate it). -/
def ndig (b : Nat) : Nat → Nat → List Nat
  | 0, _ => []
  | _ + 1, 0 => []
  | fuel + 1, n => n % b :: ndig b fuel (n / b)

/-- Base-`b` textual form of `n` (most significant digit first). -/
def natToChars (b n : Nat) : List Char :=
  if n = 0 then ['0'] else ((ndig b (n + 1) n).map digitChar).reverse

/-- Value of a little-endian digit list in base `b`. -/
def digsVal (b : Nat) : List Nat → Nat
  | [] => 0
  | d :: ds => d + b * digsVal b ds

/-- Parse a nonempty all-digit character list in base `b`. -/
def charsToNat? (b : Nat) (cs : List Char) : Option Nat :=
  if !cs.isEmpty && cs.all (isDigitB b) then
    some (digsVal b ((cs.map digitVal).reverse))
  else none

theorem digit_rt : ∀ b < 17, ∀ d < b,
    digitVal (digitChar d) = d ∧ isDigitB b (digitChar d) = true := by decide

theorem digit16 : ∀ d < 16, isDigitB 16 (digitChar d) = true := by decide

theorem ndig_lt {b : Nat} (hb : 2 ≤ b) :
    ∀ fuel n d, d ∈ ndig b fuel n → d < b := by
  intro fuel
  induction fuel with
  | zero => intro n d h; simp [ndig] at h
  | succ m ih =>
    intro n d h
    match n with
    | 0 => simp [ndig] at h
    | k + 1 =>
      simp only [ndig, List.mem_cons] at h
      rcases h with h | h
      · subst h; exact Nat.mod_lt _ (by omega)
      · exact ih _ _ h

theorem digsVal_ndig {b : Nat} (hb : 2 ≤ b) :
    ∀ fuel n, n ≤ fuel → digsVal b (ndig b fuel n) = n := by
  intro fuel
  induction fuel with
  | zero => intro n h; interval_cases n; simp [ndig, digsVal]
  | succ m ih =>
    intro n h
    match n with
    | 0 => simp [ndig, digsVal]
    | k + 1 =>
      have hdiv : (k + 1) / b ≤ m := by
        have h1 : (k + 1) / b < k + 1 := Nat.div_lt_self (by omega) (by omega)
        omega
      simp only [ndig, digsVal, ih _ hdiv]
      exact Nat.mod_add_div (k + 1) b

theorem ndig_ne_nil {b : Nat} (n : Nat) (hn : 0 < n) : ndig b (n + 1) n ≠ [] := by
  match n, hn with
  | k + 1, _ => simp [ndig]

theorem charsToNat_natToChars {b : Nat} (hb : 2 ≤ b) (hb16 : b ≤ 16) (n : Nat) :
    charsToNat? b (natToChars b n) = some n := by
  by_cases h0 : n = 0
  · subst h0
    have h48 : ('0').toNat = 48 := rfl
    have hd0 : isDigitB b '0' = true := by
      simp only [isDigitB, h48]
      simp
      omega
    have hdv : digitVal '0' = 0 := rfl
    simp [natToChars, charsToNat?, hd0, hdv, digsVal]
  · have hmem : ∀ d ∈ ndig b (n + 1) n, d < b := fun d hd => ndig_lt hb _ _ _ hd
    have hne := ndig_ne_nil (b := b) n (by omega)
    simp only [natToChars, if_neg h0, charsToNat?]
    have hall : ((ndig b (n + 1) n).map digitChar).reverse.all (isDigitB b) = true := by
      simp only [List.all_eq_true, List.mem_reverse, List.mem_map]
      rintro c ⟨d, hd, rfl⟩
      exact ((digit_rt b (by omega) d (hmem d hd)).2)
    have hnonempty : (((ndig b (n + 1) n).map digitChar).reverse.isEmpty) = false := by
      simp [List.isEmpty_iff, hne]
    rw [hnonempty, hall]
    simp only [Bool.not_false, Bool.and_self, if_true]
    congr 1
    have hmapmap : (((ndig b (n + 1) n).map digitChar).reverse.map digitVal).reverse
        = (ndig b (n + 1) n).map (fun d => digitVal (digitChar d)) := by
      rw [← List.map_reverse, List.reverse_reverse, List.map_map]
      rfl
    rw [hmapmap]
    have hid : (ndig b (n + 1) n).map (fun d => digitVal (digitChar d)) = ndig b (n + 1) n := by
      have := List.map_congr_left
        (l := ndig b (n + 1) n) (f := fun d => digitVal (digitChar d)) (g := id)
        (fun d hd => (digit_rt b (by omega) d (hmem d hd)).1)
      simpa using this
    rw [hid]
    exact digsVal_ndig hb _ n (by omega)

theorem natToChars_digit16 {b : Nat} (hb : 2 ≤ b) (hb16 : b ≤ 16) {n : Nat} :
    ∀ c ∈ natToChars b n, isDigitB 16 c = true := by
  intro c hc
  by_cases h0 : n = 0
  · subst h0; simp [natToChars] at hc; subst hc; decide
  · simp only [natToChars, if_neg h0, List.mem_reverse, List.mem_map] at hc
    obtain ⟨d, hd, rfl⟩ := hc
    exact digit16 d (lt_of_lt_of_le (ndig_lt hb _ _ _ hd) hb16)

theorem isDigitB16_ne_sep {c : Char} (h : isDigitB 16 c = true) :
    c ≠ '.' ∧ c ≠ ':' ∧ c ≠ '/' := by
  refine ⟨?_, ?_, ?_⟩ <;> rintro rfl <;> exact absurd h (by decide)

/-! ## Splitting character lists

Python's `str.split(sep)` and `str.split(sep, maxsplit)` on one-character
separators, implemented on `List Char` so that all functions are structural
and kernel-evaluable. -/

/-- Model of Python `s.split(sep)` for a single-character separator. -/
def splitOnChar (sep : Char) : List Char → List (List Char)
  | [] => [[]]
  | c :: cs =>
    if c = sep then [] :: splitOnChar sep cs
    else
      match splitOnChar sep cs with
      | [] => [[c]]
      | p :: ps => (c :: p) :: ps

theorem splitOnChar_ne_nil (sep : Char) (cs : List Char) : splitOnChar sep cs ≠ [] := by
  induction cs with
  | nil => simp [splitOnChar]
  | cons c cs ih =>
    simp only [splitOnChar]
    split
    · simp
    · split
      · simp
      · simp

theorem splitOnChar_not_mem {sep : Char} {cs : List Char} (h : sep ∉ cs) :
    splitOnChar sep cs = [cs] := by
  induction cs with
  | nil => rfl
  | cons c cs ih =>
    simp only [List.mem_cons, not_or] at h
    have hc : ¬(c = sep) := fun hc => h.1 hc.symm
    rw [splitOnChar, if_neg hc, ih h.2]

theorem splitOnChar_append {sep : Char} {a : List Char} (b : List Char) (h : sep ∉ a) :
    splitOnChar sep (a ++ sep :: b) = a :: splitOnChar sep b := by
  induction a with
  | nil => simp [splitOnChar]
  | cons c cs ih =>
    simp only [List.mem_cons, not_or] at h
    have hc : ¬(c = sep) := fun hc => h.1 hc.symm
    show splitOnChar sep (c :: (cs ++ sep :: b)) = (c :: cs) :: splitOnChar sep b
    rw [splitOnChar, if_neg hc, ih h.2]

/-- First occurrence of `sep`: `some (before, after)`, or `none`. -/
def breakAtSep (sep : Char) : List Char → Option (List Char × List Char)
  | [] => none
  | c :: cs =>
    if c = sep then some ([], cs)
    else (breakAtSep sep cs).map (fun p => (c :: p.1, p.2))

/-- Model of Python `s.split(sep, maxsplit)`: split at most `m` times. -/
def splitMax (sep : Char) : Nat → List Char → List (List Char)
  | 0, cs => [cs]
  | m + 1, cs =>
    match breakAtSep sep cs with
    | none => [cs]
    | some (a, b) => a :: splitMax sep m b

theorem breakAtSep_append {sep : Char} {a : List Char} (b : List Char) (h : sep ∉ a) :
    breakAtSep sep (a ++ sep :: b) = some (a, b) := by
  induction a with
  | nil => simp [breakAtSep]
  | cons c cs ih =>
    simp only [List.mem_cons, not_or] at h
    have hc : ¬(c = sep) := fun hc => h.1 hc.symm
    show breakAtSep sep (c :: (cs ++ sep :: b)) = some (c :: cs, b)
    rw [breakAtSep, if_neg hc, ih h.2]
    rfl

theorem splitMax_append {sep : Char} {a : List Char} (m : Nat) (b : List Char) (h : sep ∉ a) :
    splitMax sep (m + 1) (a ++ sep :: b) = a :: splitMax sep m b := by
  simp [splitMax, breakAtSep_append b h]

theorem splitMax_zero (sep : Char) (cs : List Char) : splitMax sep 0 cs = [cs] := rfl

/-! ## Model of `netaddr` addresses and networks

`netaddr.IPAddress` / `netaddr.IPNetwork` (version 0.7.x, the series this
2015 module was written against) are modelled as records over `Nat` with the
version carried explicitly.  String forms:

* IPv4 addresses print as the usual dotted quad;
* IPv6 addresses are modelled in the full 8-group lowercase-hexadecimal form
  (real `netaddr` prints a `::`-compressed form; the model keeps the
  uncompressed form, which `netaddr` also accepts on input — no claim below
  depends on a particular compressed spelling);
* parsing without an explicit version tries IPv4 first, then IPv6, exactly
  as `netaddr.IPAddress(str)` does; a failure is `none` (`AddrFormatError`).
-/

inductive IPVer
  | v4
  | v6
  deriving DecidableEq, Repr

/-- Bit width of an IP version. -/
def IPVer.width : IPVer → Nat
  | .v4 => 32
  | .v6 => 128

/-- Model of `netaddr.IPAddress`: version plus numeric value. -/
structure IPAddr where
  ver : IPVer
  val : Nat
  deriving DecidableEq, Repr

/-- Well-formed address: the value fits in the version's width (enforced by
`netaddr` at construction). -/
def IPAddr.WF (a : IPAddr) : Prop := a.val < 2 ^ a.ver.width

/-- Model of `netaddr.IPNetwork`: version, numeric value (host bits play a
role in the textual form but not in equality) and prefix length. -/
structure IPNet where
  ver : IPVer
  val : Nat
  plen : Nat
  deriving DecidableEq, Repr

/-- Well-formed network, as enforced by `netaddr` at construction. -/
def IPNet.WF (n : IPNet) : Prop := n.val < 2 ^ n.ver.width ∧ n.plen ≤ n.ver.width

/-- Number of host bits of the network. -/
def IPNet.hostBits (n : IPNet) : Nat := n.ver.width - n.plen

/-- `IPNetwork.first`: numeric value of the network address (host bits
cleared). -/
def IPNet.first (n : IPNet) : Nat := n.val / 2 ^ n.hostBits * 2 ^ n.hostBits

/-- `IPNetwork.last`: numeric value of the last address of the network. -/
def IPNet.last (n : IPNet) : Nat := n.first + 2 ^ n.hostBits - 1

/-- `netaddr.IPNetwork.__eq__` compares `(version, first, last)` — host bits
are ignored, so `IPNetwork('10.1.1.1/8') == IPNetwork('10.0.0.0/8')`.  This
boolean equality is what Python `==`, `in` and `dict` lookup use on pools and
network sets. -/
def eqNet (a b : IPNet) : Bool :=
  a.ver == b.ver && a.first == b.first && a.last == b.last

/-- `IPNetwork.cidr`: the network with host bits cleared (used by
`add_ip_pool`/`del_ip_pool` to normalize pools). -/
def IPNet.cidr (n : IPNet) : IPNet := ⟨n.ver, n.first, n.plen⟩

/-- Characters of the decimal dotted-quad form of an IPv4 value. -/
def v4Chars (v : Nat) : List Char :=
  natToChars 10 (v / 16777216) ++ '.' ::
    (natToChars 10 (v / 65536 % 256) ++ '.' ::
      (natToChars 10 (v / 256 % 256) ++ '.' :: natToChars 10 (v % 256)))

/-- Characters of the full 8-group lowercase-hex form of an IPv6 value. -/
def v6Chars (v : Nat) : List Char :=
  natToChars 16 (v / 2 ^ 112) ++ ':' ::
    (natToChars 16 (v / 2 ^ 96 % 65536) ++ ':' ::
      (natToChars 16 (v / 2 ^ 80 % 65536) ++ ':' ::
        (natToChars 16 (v / 2 ^ 64 % 65536) ++ ':' ::
          (natToChars 16 (v / 2 ^ 48 % 65536) ++ ':' ::
            (natToChars 16 (v / 2 ^ 32 % 65536) ++ ':' ::
              (natToChars 16 (v / 2 ^ 16 % 65536) ++ ':' ::
                natToChars 16 (v % 65536)))))))

/-- Characters of `str(IPAddress)`. -/
def addrChars (a : IPAddr) : List Char :=
  match a.ver with
  | .v4 => v4Chars a.val
  | .v6 => v6Chars a.val

/-- Model of `str(netaddr.IPAddress)`. -/
def strOfAddr (a : IPAddr) : String := String.mk (addrChars a)

/-- Characters of `str(IPNetwork)`; note the textual form keeps the host
bits (`str(IPNetwork('10.1.1.1/8')) == '10.1.1.1/8'`). -/
def netChars (n : IPNet) : List Char :=
  addrChars ⟨n.ver, n.val⟩ ++ '/' :: natToChars 10 n.plen

/-- Model of `str(netaddr.IPNetwork)`. -/
def strOfNet (n : IPNet) : String := String.mk (netChars n)

/-- Parse a dotted quad; `none` models `AddrFormatError`. -/
def parseIPv4 (cs : List Char) : Option Nat :=
  match splitOnChar '.' cs with
  | [a, b, c, d] => do
    let x ← charsToNat? 10 a
    let y ← charsToNat? 10 b
    let z ← charsToNat? 10 c
    let w ← charsToNat? 10 d
    if x ≤ 255 && y ≤ 255 && z ≤ 255 && w ≤ 255 then
      some (((x * 256 + y) * 256 + z) * 256 + w)
    else none
  | _ => none

/-- Parse a full 8-group hexadecimal IPv6 form. -/
def parseIPv6 (cs : List Char) : Option Nat :=
  match splitOnChar ':' cs with
  | [g7, g6, g5, g4, g3, g2, g1, g0] => do
    let a ← charsToNat? 16 g7
    let b ← charsToNat? 16 g6
    let c ← charsToNat? 16 g5
    let d ← charsToNat? 16 g4
    let e ← charsToNat? 16 g3
    let f ← charsToNat? 16 g2
    let g ← charsToNat? 16 g1
    let h ← charsToNat? 16 g0
    if a ≤ 65535 && b ≤ 65535 && c ≤ 65535 && d ≤ 65535 &&
       e ≤ 65535 && f ≤ 65535 && g ≤ 65535 && h ≤ 65535 then
      some (((((((a * 65536 + b) * 65536 + c) * 65536 + d) * 65536 + e)
        * 65536 + f) * 65536 + g) * 65536 + h)
    else none
  | _ => none

/-- Model of `netaddr.IPAddress(s)` (no version argument): try IPv4, then
IPv6. -/
def parseIPAddr (cs : List Char) : Option IPAddr :=
  match parseIPv4 cs with
  | some v => some ⟨.v4, v⟩
  | none => (parseIPv6 cs).map (fun v => ⟨.v6, v⟩)

/-- Model of `netaddr.IPNetwork(s)`: address part with optional `/prefix`
(a bare address gets the full-width prefix). -/
def parseIPNet (cs : List Char) : Option IPNet :=
  match splitOnChar '/' cs with
  | [a] => (parseIPAddr a).map (fun x => ⟨x.ver, x.val, x.ver.width⟩)
  | [a, p] =>
    match parseIPAddr a, charsToNat? 10 p with
    | some x, some pl =>
      if pl ≤ x.ver.width then some ⟨x.ver, x.val, pl⟩ else none
    | _, _ => none
  | _ => none

/-- String-level `netaddr.IPAddress(s)`. -/
def parseAddrStr (s : String) : Option IPAddr := parseIPAddr s.data

/-- String-level `netaddr.IPNetwork(s)`. -/
def parseNetStr (s : String) : Option IPNet := parseIPNet s.data

/-! ### Print/parse inverse lemmas for the `netaddr` model -/

theorem not_mem_natToChars {b n : Nat} (hb : 2 ≤ b) (hb16 : b ≤ 16) {c : Char}
    (hsep : c = '.' ∨ c = ':' ∨ c = '/') : c ∉ natToChars b n := by
  intro hmem
  have h16 := natToChars_digit16 hb hb16 c hmem
  have := isDigitB16_ne_sep h16
  rcases hsep with rfl | rfl | rfl
  · exact this.1 rfl
  · exact this.2.1 rfl
  · exact this.2.2 rfl

theorem parseIPv4_v4Chars {v : Nat} (hv : v < 2 ^ 32) :
    parseIPv4 (v4Chars v) = some v := by
  have h10 : (2 : Nat) ≤ 10 := by norm_num
  have h16 : (10 : Nat) ≤ 16 := by norm_num
  have hd : ∀ m : Nat, '.' ∉ natToChars 10 m :=
    fun m => not_mem_natToChars h10 h16 (Or.inl rfl)
  unfold parseIPv4 v4Chars
  rw [splitOnChar_append _ (hd _), splitOnChar_append _ (hd _),
      splitOnChar_append _ (hd _), splitOnChar_not_mem (hd _)]
  simp only [charsToNat_natToChars h10 h16, Option.bind_eq_bind, Option.some_bind]
  have hcond : (v / 16777216 ≤ 255 && v / 65536 % 256 ≤ 255 &&
      v / 256 % 256 ≤ 255 && v % 256 ≤ 255) = true := by
    simp only [Bool.and_eq_true, decide_eq_true_eq]
    omega
  rw [hcond]
  simp only [if_true]
  congr 1
  omega

theorem parseIPv6_v6Chars {v : Nat} (hv : v < 2 ^ 128) :
    parseIPv6 (v6Chars v) = some v := by
  have h2 : (2 : Nat) ≤ 16 := by norm_num
  have h16 : (16 : Nat) ≤ 16 := le_refl _
  have hc : ∀ m : Nat, ':' ∉ natToChars 16 m :=
    fun m => not_mem_natToChars h2 h16 (Or.inr (Or.inl rfl))
  unfold parseIPv6 v6Chars
  rw [splitOnChar_append _ (hc _), splitOnChar_append _ (hc _),
      splitOnChar_append _ (hc _), splitOnChar_append _ (hc _),
      splitOnChar_append _ (hc _), splitOnChar_append _ (hc _),
      splitOnChar_append _ (hc _), splitOnChar_not_mem (hc _)]
  simp only [charsToNat_natToChars h2 h16, Option.bind_eq_bind, Option.some_bind]
  have hcond : (v / 2 ^ 112 ≤ 65535 && v / 2 ^ 96 % 65536 ≤ 65535 &&
      v / 2 ^ 80 % 65536 ≤ 65535 && v / 2 ^ 64 % 65536 ≤ 65535 &&
      v / 2 ^ 48 % 65536 ≤ 65535 && v / 2 ^ 32 % 65536 ≤ 65535 &&
      v / 2 ^ 16 % 65536 ≤ 65535 && v % 65536 ≤ 65535) = true := by
    simp only [Bool.and_eq_true, decide_eq_true_eq]
    norm_num
    omega
  rw [hcond]
  simp only [if_true]
  congr 1
  have e112 : (2 : Nat) ^ 112 = 5192296858534827628530496329220096 := by norm_num
  have e96 : (2 : Nat) ^ 96 = 79228162514264337593543950336 := by norm_num
  have e80 : (2 : Nat) ^ 80 = 1208925819614629174706176 := by norm_num
  have e64 : (2 : Nat) ^ 64 = 18446744073709551616 := by norm_num
  have e48 : (2 : Nat) ^ 48 = 281474976710656 := by norm_num
  have e32 : (2 : Nat) ^ 32 = 4294967296 := by norm_num
  have e16 : (2 : Nat) ^ 16 = 65536 := by norm_num
  have e128 : (2 : Nat) ^ 128 = 340282366920938463463374607431768211456 := by norm_num
  rw [e112, e96, e80, e64, e48, e32, e16] at *
  rw [e128] at hv
  omega

theorem mem_v6Chars {v : Nat} {c : Char} (h : c ∈ v6Chars v) :
    isDigitB 16 c = true ∨ c = ':' := by
  have h2 : (2 : Nat) ≤ 16 := by norm_num
  have h16 : (16 : Nat) ≤ 16 := le_refl _
  simp only [v6Chars, List.mem_append, List.mem_cons] at h
  rcases h with h | h | h | h | h | h | h | h | h | h | h | h | h | h | h <;>
    first
      | exact Or.inl (natToChars_digit16 h2 h16 c h)
      | exact Or.inr h

theorem parseIPv4_v6Chars (v : Nat) : parseIPv4 (v6Chars v) = none := by
  have hdot : '.' ∉ v6Chars v := by
    intro hmem
    rcases mem_v6Chars hmem with h | h
    · exact (isDigitB16_ne_sep h).1 rfl
    · exact absurd h (by decide)
  unfold parseIPv4
  rw [splitOnChar_not_mem hdot]

theorem parseIPAddr_addrChars {a : IPAddr} (ha : a.WF) :
    parseIPAddr (addrChars a) = some a := by
  obtain ⟨ver, val⟩ := a
  cases ver with
  | v4 =>
    have hv : val < 2 ^ 32 := ha
    simp [parseIPAddr, addrChars, parseIPv4_v4Chars hv]
  | v6 =>
    have hv : val < 2 ^ 128 := ha
    simp [parseIPAddr, addrChars, parseIPv4_v6Chars, parseIPv6_v6Chars hv]

theorem slash_not_mem_addrChars (a : IPAddr) : '/' ∉ addrChars a := by
  intro hmem
  obtain ⟨ver, val⟩ := a
  cases ver with
  | v4 =>
    simp only [addrChars, v4Chars, List.mem_append, List.mem_cons] at hmem
    rcases hmem with h | h | h | h | h | h | h <;>
      first
        | exact not_mem_natToChars (by norm_num) (by norm_num) (Or.inr (Or.inr rfl)) h
        | exact absurd h (by decide)
  | v6 =>
    rcases mem_v6Chars hmem with h | h
    · exact (isDigitB16_ne_sep h).2.2 rfl
    · exact absurd h (by decide)

theorem parseIPNet_netChars {n : IPNet} (hn : n.WF) :
    parseIPNet (netChars n) = some n := by
  have hs : '/' ∉ addrChars ⟨n.ver, n.val⟩ := slash_not_mem_addrChars _
  have hsp : '/' ∉ natToChars 10 n.plen :=
    not_mem_natToChars (by norm_num) (by norm_num) (Or.inr (Or.inr rfl))
  unfold parseIPNet netChars
  rw [splitOnChar_append _ hs, splitOnChar_not_mem hsp]
  have hwf : IPAddr.WF ⟨n.ver, n.val⟩ := hn.1
  simp only [parseIPAddr_addrChars hwf,
    charsToNat_natToChars (b := 10) (by norm_num) (by norm_num)]
  simp only [if_pos hn.2]

theorem parseNetStr_strOfNet {n : IPNet} (hn : n.WF) :
    parseNetStr (strOfNet n) = some n := parseIPNet_netChars hn

theorem parseAddrStr_strOfAddr {a : IPAddr} (ha : a.WF) :
    parseAddrStr (strOfAddr a) = some a := parseIPAddr_addrChars ha

theorem parseIPv4_lt {cs : List Char} {v : Nat} (h : parseIPv4 cs = some v) :
    v < 2 ^ 32 := by
  unfold parseIPv4 at h
  split at h
  · simp only [Option.bind_eq_bind, Option.bind_eq_some] at h
    obtain ⟨x, hx, y, hy, z, hz, w, hw, hfin⟩ := h
    split at hfin
    · rename_i hcond
      simp only [Bool.and_eq_true, decide_eq_true_eq] at hcond
      have := Option.some.inj hfin
      omega
    · exact absurd hfin (by simp)
  · exact absurd h (by simp)

theorem parseIPv6_lt {cs : List Char} {v : Nat} (h : parseIPv6 cs = some v) :
    v < 2 ^ 128 := by
  unfold parseIPv6 at h
  split at h
  · simp only [Option.bind_eq_bind, Option.bind_eq_some] at h
    obtain ⟨a, ha, b, hb, c, hc, d, hd, e, he, f, hf, g, hg, k, hk, hfin⟩ := h
    split at hfin
    · rename_i hcond
      simp only [Bool.and_eq_true, decide_eq_true_eq] at hcond
      have := Option.some.inj hfin
      have e128 : (2 : Nat) ^ 128 = 340282366920938463463374607431768211456 := by norm_num
      rw [e128]
      omega
    · exact absurd hfin (by simp)
  · exact absurd h (by simp)

theorem parseIPAddr_WF {cs : List Char} {a : IPAddr} (h : parseIPAddr cs = some a) :
    a.WF := by
  unfold parseIPAddr at h
  split at h
  · rename_i v hv
    cases Option.some.inj h
    exact parseIPv4_lt hv
  · rw [Option.map_eq_some'] at h
    obtain ⟨v, hv, rfl⟩ := h
    exact parseIPv6_lt hv

theorem parseIPNet_WF {cs : List Char} {n : IPNet} (h : parseIPNet cs = some n) :
    n.WF := by
  unfold parseIPNet at h
  split at h
  · rw [Option.map_eq_some'] at h
    obtain ⟨x, hx, rfl⟩ := h
    exact ⟨parseIPAddr_WF hx, le_refl _⟩
  · split at h
    · rename_i x pl hx hpl
      split at h
      · rename_i hle
        cases Option.some.inj h
        exact ⟨parseIPAddr_WF hx, hle⟩
      · exact absurd h (by simp)
    · exact absurd h (by simp)
  · exact absurd h (by simp)

theorem eqNet_refl (n : IPNet) : eqNet n n = true := by simp [eqNet]

theorem eqNet_symm {a b : IPNet} (h : eqNet a b = true) : eqNet b a = true := by
  simp only [eqNet, Bool.and_eq_true, beq_iff_eq] at *
  tauto

theorem eqNet_trans {a b c : IPNet} (h1 : eqNet a b = true) (h2 : eqNet b c = true) :
    eqNet a c = true := by
  simp only [eqNet, Bool.and_eq_true, beq_iff_eq] at *
  exact ⟨⟨h1.1.1.trans h2.1.1, h1.1.2.trans h2.1.2⟩, h1.2.trans h2.2⟩

theorem cidr_first (n : IPNet) : n.cidr.first = n.first := by
  simp only [IPNet.first, IPNet.cidr, IPNet.hostBits]
  rw [Nat.mul_div_cancel _ (Nat.pos_pow_of_pos _ (by norm_num))]

theorem eqNet_cidr (n : IPNet) : eqNet n.cidr n = true := by
  simp only [eqNet, Bool.and_eq_true, beq_iff_eq]
  refine ⟨⟨rfl, cidr_first n⟩, ?_⟩
  simp only [IPNet.last, cidr_first n]
  rfl

theorem cidr_WF {n : IPNet} (h : n.WF) : n.cidr.WF := by
  refine ⟨?_, h.2⟩
  calc n.cidr.val = n.first := rfl
    _ ≤ n.val := Nat.div_mul_le_self _ _
    _ < 2 ^ n.ver.width := h.1

theorem strOfAddr_ne_empty (a : IPAddr) : strOfAddr a ≠ "" := by
  intro h
  have : addrChars a = [] := congrArg String.data h
  obtain ⟨ver, val⟩ := a
  cases ver with
  | v4 =>
    simp only [addrChars, v4Chars] at this
    exact absurd this (by simp)
  | v6 =>
    simp only [addrChars, v6Chars] at this
    exact absurd this (by simp)

/-! ## Errors

Python exception kinds that flow through `datastore.py`:

* `Err.keyErr` — `KeyError`.  `python-etcd`'s `EtcdKeyNotFound` subclasses
  `KeyError`, which is why the module's `except KeyError` handlers catch
  store not-found conditions; the module's own re-raised errors
  (`del_ip_pool`, `get_ep_id_from_cont`, `Rule.__setitem__`) are also
  `KeyError`s, distinguished by their message;
* `Err.addrFormat` — `netaddr.AddrFormatError` (never caught by the
  `except KeyError` handlers);
* `Err.valueErr` — other failures (`ValueError`/`TypeError`-like), used
  only for branches unreachable on well-formed stores. -/
inductive Err
  | keyErr (msg : String)
  | addrFormat (msg : String)
  | valueErr (msg : String)
  deriving DecidableEq, Repr

/-! ## Rule and Rules (`datastore.py` lines 35-72)

A `Rule` is a Python `dict` restricted to nine keys; it is modelled as an
insertion-ordered association list (the value type is opaque to the
validation logic and is left polymorphic).  `Rules` is the named triple
serialized by `Rules.to_json`. -/

/-- `Rule.ALLOWED_KEYS`. -/
def ALLOWED_KEYS : List String :=
  ["protocol", "src_tag", "src_ports", "src_net", "dst_tag", "dst_ports",
   "dst_net", "icmp_type", "action"]

/-- Python `dict.__setitem__`: replace the value in place if the key is
present (keeping the original key object and position), else append. -/
def dictSet {α : Type} (d : List (String × α)) (k : String) (v : α) :
    List (String × α) :=
  if d.any (fun e => e.1 == k) then
    d.map (fun e => if e.1 == k then (e.1, v) else e)
  else d ++ [(k, v)]

/-- Python `dict` lookup returning `none` for a missing key. -/
def dictFind {α : Type} (d : List (String × α)) (k : String) : Option α :=
  (d.find? (fun e => e.1 == k)).map (fun e => e.2)

/-- `Rule.__setitem__`: reject keys outside `ALLOWED_KEYS` with
`KeyError("Key %s is not allowed on Rule." % key)`. -/
def ruleSetItem {α : Type} (d : List (String × α)) (k : String) (v : α) :
    Except Err (List (String × α)) :=
  if k ∈ ALLOWED_KEYS then .ok (dictSet d k v)
  else .error (.keyErr ("Key " ++ k ++ " is not allowed on Rule."))

/-- `Rule.__init__(**kwargs)`: start from the empty dict and set every
pair in order; the first disallowed key raises and no value is produced. -/
def mkRule {α : Type} (kvs : List (String × α)) :
    Except Err (List (String × α)) :=
  kvs.foldlM (fun d kv => ruleSetItem d kv.1 kv.2) []

/-- A rule as stored (values are strings in every rule this module
writes). -/
abbrev RuleD := List (String × String)

/-- The `Rules` namedtuple: profile id plus inbound/outbound rule lists
(this is the structured content of `Rules.to_json`). -/
structure RulesV where
  id : String
  inbound_rules : List RuleD
  outbound_rules : List RuleD
  deriving DecidableEq, Repr

/-! ## Endpoint codec (`datastore.py` lines 74-118) -/

/-- `IF_PREFIX`: prefix of all Calico interface names. -/
def ifPref : String := "cali"

/-- Python `s[:11]`. -/
def take11 (s : String) : String := String.mk (s.data.take 11)

/-- Model of an `Endpoint` object's attributes.  `ipv4_nets`/`ipv6_nets`
are Python `set`s of `IPNetwork`; they are modelled as lists whose order
stands for the set's iteration order, with members distinct up to the
`IPNetwork` equality `eqNet` (the invariant every Python set maintains). -/
structure Endpoint where
  ep_id : String
  state : String
  mac : String
  profile_id : Option String
  ipv4_nets : List IPNet
  ipv6_nets : List IPNet
  ipv4_gateway : Option IPAddr
  ipv6_gateway : Option IPAddr
  deriving DecidableEq, Repr

/-- The JSON object written/read for an endpoint, as a structured record
(`json.dumps`/`json.loads` of such an object is faithful and injective, so
the string level is elided).  `none` is JSON `null`. -/
structure Payload where
  state : String
  name : String
  mac : String
  profile_id : Option String
  ipv4_nets : List String
  ipv6_nets : List String
  ipv4_gateway : Option String
  ipv6_gateway : Option String
  deriving DecidableEq, Repr

/-- Python `set.add` for `IPNetwork` sets: a member equal under `eqNet`
keeps the existing element, otherwise the element is appended. -/
def netSetAdd (s : List IPNet) (x : IPNet) : List IPNet :=
  if s.any (fun y => eqNet y x) then s else s ++ [x]

/-- Python truthiness of a `netaddr.IPAddress`: netaddr 0.7.x defines
`IPAddress.__bool__`/`__nonzero__` as `bool(self._value)`, so the zero
address (`0.0.0.0`, `::`) is falsy.  (This was changed to always-truthy
only in netaddr 1.0, long after this module was written.) -/
def addrTruthy (a : IPAddr) : Bool := a.val != 0

/-- The gateway emission `str(gw) if gw else None` (lines 94-97): the
truthiness check makes a `None` and a zero-valued gateway both emit
`null`. -/
def gwEmit (g : Option IPAddr) : Option String :=
  match g with
  | some a => if addrTruthy a then some (strOfAddr a) else none
  | none => none

/-- `Endpoint.to_json` (lines 87-98): the `name` field is derived from the
endpoint id, the network sets are emitted as `str(net)` lists, and each
gateway is emitted as `str(gw) if gw else None`. -/
def Endpoint.to_json (e : Endpoint) : Payload :=
  { state := e.state
    name := ifPref ++ take11 e.ep_id
    mac := e.mac
    profile_id := e.profile_id
    ipv4_nets := e.ipv4_nets.map strOfNet
    ipv6_nets := e.ipv6_nets.map strOfNet
    ipv4_gateway := gwEmit e.ipv4_gateway
    ipv6_gateway := gwEmit e.ipv6_gateway }

/-- One step of decoding a network list entry:
`ep.ipv4_nets.add(IPNetwork(net))`; an unparseable entry raises
`AddrFormatError` (there is no handler in `from_json`). -/
def netStep (acc : List IPNet) (s : String) : Except Err (List IPNet) :=
  match parseNetStr s with
  | some n => .ok (netSetAdd acc n)
  | none => .error (.addrFormat s)

/-- Decode one list of network strings by repeated `set.add(IPNetwork(net))`. -/
def parseNetList (ss : List String) : Except Err (List IPNet) :=
  ss.foldlM netStep []

/-- Decode one optional gateway: `if gw: ep.gateway = IPAddress(gw)`.
JSON `null` and the empty string are falsy and leave the gateway absent;
a nonempty string is parsed and an unparseable one raises
`AddrFormatError`. -/
def parseGw (o : Option String) : Except Err (Option IPAddr) :=
  match o with
  | none => .ok none
  | some s =>
    if s = "" then .ok none
    else
      match parseAddrStr s with
      | some a => .ok (some a)
      | none => .error (.addrFormat s)

/-- `Endpoint.from_json` (lines 100-118).  Field order follows the source:
IPv4 nets, IPv6 nets, IPv4 gateway, IPv6 gateway, then `profile_id`.  The
incoming `name` field is never read, and the `felix_host` argument is
discarded by `__init__`. -/
def Endpoint.from_json (ep_id : String) (p : Payload) : Except Err Endpoint := do
  let n4 ← parseNetList p.ipv4_nets
  let n6 ← parseNetList p.ipv6_nets
  let g4 ← parseGw p.ipv4_gateway
  let g6 ← parseGw p.ipv6_gateway
  .ok { ep_id := ep_id, state := p.state, mac := p.mac,
        profile_id := p.profile_id, ipv4_nets := n4, ipv6_nets := n6,
        ipv4_gateway := g4, ipv6_gateway := g6 }

/-! ## The etcd store model

An etcd v2 store is a tree of keys.  It is modelled as a list of nodes: a
node with `value = some v` is a file, `value = none` a directory (etcd
files always carry a string; the structured `Val` below stands for that
string, constructor-injectively).  Keys are stored in normalized form
(no trailing `/`, as the etcd server normalizes them); directories that
exist only implicitly in etcd are represented by explicit `none` nodes.
Reads/writes/deletes below follow `python-etcd`: a missing path raises
`EtcdKeyNotFound`, which is a `KeyError`. -/

/-- A stored string, represented structurally.  `raw` is an arbitrary
plain string (IP pool CIDRs, host addresses); the other constructors are
the JSON documents this module writes (`'["name"]'` tag lists,
`Rules.to_json`, `Endpoint.to_json`).  Distinct constructors model
distinct strings (JSON texts of different shapes are never equal to the
CIDR/address strings this module stores as `raw`). -/
inductive Val
  | raw (s : String)
  | tags (ts : List String)
  | rules (r : RulesV)
  | endpoint (p : Payload)
  deriving DecidableEq, Repr

/-- One etcd node. -/
structure ENode where
  key : String
  value : Option Val
  deriving DecidableEq, Repr

/-- The whole store. -/
abbrev Store := List ENode

/-- Boolean prefix test on character lists. -/
def listIsPref : List Char → List Char → Bool
  | [], _ => true
  | _ :: _, [] => false
  | a :: as, b :: bs => a == b && listIsPref as bs

/-- Drop trailing `/` characters (etcd key normalization). -/
def normChars (cs : List Char) : List Char :=
  (cs.reverse.dropWhile (fun c => c == '/')).reverse

/-- Normalize a path the way the etcd server does. -/
def normPath (p : String) : String := String.mk (normChars p.data)

/-- Is `k` at or below the (normalized) path `q`? -/
def keyIsUnder (q k : String) : Bool :=
  k == q || listIsPref (q.data ++ ['/']) k.data

/-- Does any node live at or below `p`?  (etcd: does the path exist?) -/
def existsUnder (s : Store) (p : String) : Bool :=
  s.any (fun n => keyIsUnder (normPath p) n.key)

/-- Find the node with exactly this key. -/
def findNode (s : Store) (k : String) : Option ENode :=
  s.find? (fun n => n.key == normPath k)

/-- `etcd_client.read(p).value`: the value of the node at `p` (`none` when
`p` is a directory); raises not-found when the key is absent. -/
def readNodeValue (s : Store) (p : String) : Except Err (Option Val) :=
  match findNode s p with
  | some n => .ok n.value
  | none => .error (.keyErr (normPath p))

/-- `etcd_client.write(p, v)` / `set(p, v)`: overwrite the value at an
existing key, else create the key. -/
def writeKey (s : Store) (p : String) (v : Val) : Store :=
  let k := normPath p
  if s.any (fun n => n.key == k) then
    s.map (fun n => if n.key == k then { key := n.key, value := some v } else n)
  else s ++ [⟨k, some v⟩]

/-- Does `k` have a strict descendant in the store? -/
def hasChildIn (s : Store) (k : String) : Bool :=
  s.any (fun m => listIsPref (k.data ++ ['/']) m.key.data)

/-- The leaves of the subtree rooted at `p` (`EtcdResult.leaves` of a
recursive read: every node of the subtree with no children; a childless
directory is itself yielded). -/
def leavesUnder (s : Store) (p : String) : List ENode :=
  s.filter (fun n => keyIsUnder (normPath p) n.key && !hasChildIn s n.key)

/-- `etcd_client.read(p, recursive=True).leaves`, not-found when `p` does
not exist. -/
def readLeaves (s : Store) (p : String) : Except Err (List ENode) :=
  if existsUnder s p then .ok (leavesUnder s p) else .error (.keyErr (normPath p))

/-- Strip a prefix from a character list. -/
def stripPref : List Char → List Char → Option (List Char)
  | [], bs => some bs
  | _ :: _, [] => none
  | a :: as, b :: bs => if a == b then stripPref as bs else none

/-- Is `k` a direct child key of the (normalized) path `p`? -/
def isDirectChild (p k : String) : Bool :=
  match stripPref (p.data ++ ['/']) k.data with
  | some rest => !rest.isEmpty && !rest.contains '/'
  | none => false

/-- The direct children of `p` (`EtcdResult.children` of a non-recursive
read). -/
def childrenOf (s : Store) (p : String) : List ENode :=
  s.filter (fun n => isDirectChild (normPath p) n.key)

/-- `etcd_client.read(p).children`, not-found when `p` does not exist. -/
def readChildren (s : Store) (p : String) : Except Err (List ENode) :=
  if existsUnder s p then .ok (childrenOf s p) else .error (.keyErr (normPath p))

/-- `etcd_client.delete(p, recursive=True, dir=True)`: remove the whole
subtree; not-found when nothing lives at or below `p`. -/
def deleteSubtree (s : Store) (p : String) : Except Err Store :=
  if existsUnder s p then
    .ok (s.filter (fun n => !keyIsUnder (normPath p) n.key))
  else .error (.keyErr (normPath p))

/-- `etcd_client.delete(k)` on a file key; the argument is an exact key
as previously returned by a read (hence already normalized). -/
def deleteKey (s : Store) (k : String) : Except Err Store :=
  if s.any (fun n => n.key == k) then
    .ok (s.filter (fun n => !(n.key == k)))
  else .error (.keyErr k)

/-- Numeric suffix of `k` below `q` (used to model etcd's append-write
index allocation). -/
def suffVal (q k : String) : Option Nat :=
  match stripPref (q.data ++ ['/']) k.data with
  | some rest => charsToNat? 10 rest
  | none => none

/-- Largest numeric child suffix below `q` present in the store. -/
def maxSuff (s : Store) (q : String) : Nat :=
  s.foldr (fun n acc => max ((suffVal q n.key).getD 0) acc) 0

/-- The fresh key chosen by an append-write under `p` (etcd allocates a
fresh monotonically-increasing index key). -/
def freshKey (s : Store) (p : String) : String :=
  normPath p ++ "/" ++ String.mk (natToChars 10 (maxSuff s (normPath p) + 1))

/-- `etcd_client.write(p, v, append=True)`: create a fresh child of `p`
holding `v`. -/
def appendWrite (s : Store) (p : String) (v : Val) : Store :=
  s ++ [⟨freshKey s p, some v⟩]

/-! ### Path templates (`datastore.py` lines 12-24) -/

/-- `PROFILE_PATH % {"profile_id": name}`. -/
def profilePath (name : String) : String := "/calico/policy/profile/" ++ name ++ "/"

/-- `IP_POOL_PATH % {"version": version}` (same template as
`IP_POOLS_PATH`). -/
def poolRoot (version : String) : String := "/calico/ipam/" ++ version ++ "/pool/"

/-- `HOST_PATH % {"hostname": h}`. -/
def hostPathOf (h : String) : String := "/calico/host/" ++ h ++ "/"

/-- `LOCAL_ENDPOINTS_PATH % {"hostname": h, "container_id": c}`. -/
def localEndpointsPath (h c : String) : String :=
  hostPathOf h ++ "workload/docker/" ++ c ++ "/endpoint/"

/-- `ENDPOINT_PATH % {"hostname": h, "container_id": c, "endpoint_id": e}`. -/
def endpointPath (h c e : String) : String := localEndpointsPath h c ++ e ++ "/"

/-! ## DatastoreClient operations

The module-level global `hostname = socket.gethostname()` is threaded as
an explicit parameter `h` of the operations that use it. -/

/-- `DatastoreClient.delete_group` (lines 302-313): one recursive delete of
the profile subtree, with no exception handler — the store's not-found
error propagates to the caller (although the docstring promises `None`
when the group cannot be found). -/
def delete_group (s : Store) (name : String) : Except Err Store :=
  deleteSubtree s (profilePath name)

/-- `DatastoreClient.create_group` (lines 278-300): write the tag list
`'["%s"]' % name` (the JSON document `[name]`), then a `Rules` document
with inbound `[Rule(src_tag=name), Rule(action="deny")]` and outbound
`[Rule(action="allow")]`. -/
def create_group (s : Store) (name : String) : Except Err Store := do
  let s1 := writeKey s (profilePath name ++ "tags") (Val.tags [name])
  let default_deny ← mkRule [("action", "deny")]
  let accept_self ← mkRule [("src_tag", name)]
  let default_allow ← mkRule [("action", "allow")]
  .ok (writeKey s1 (profilePath name ++ "rules")
        (Val.rules ⟨name, [accept_self, default_deny], [default_allow]⟩))

/-- Python `dict.__setitem__` keyed by `IPNetwork` (hash/eq from `eqNet`):
overwriting keeps the originally-inserted key object and its position. -/
def poolDictIns (d : List (IPNet × String)) (k : IPNet) (v : String) :
    List (IPNet × String) :=
  if d.any (fun e => eqNet e.1 k) then
    d.map (fun e => if eqNet e.1 k then (e.1, v) else e)
  else d ++ [(k, v)]

/-- One iteration of the `_get_ip_pools_with_keys` loop (lines 213-219):
skip falsy values (`if cidr:` — a directory child has value `None`),
otherwise `pools[IPNetwork(cidr)] = child.key`; a value that is not a
CIDR raises `AddrFormatError`. -/
def poolStep (d : List (IPNet × String)) (n : ENode) :
    Except Err (List (IPNet × String)) :=
  match n.value with
  | none => .ok d
  | some (Val.raw str) =>
    if str = "" then .ok d
    else
      match parseNetStr str with
      | some net => .ok (poolDictIns d net n.key)
      | none => .error (.addrFormat str)
  | some _ => .error (.addrFormat "invalid CIDR")

/-- The `_get_ip_pools_with_keys` loop over the directory's children. -/
def poolsFromChildren (ns : List ENode) : Except Err (List (IPNet × String)) :=
  ns.foldlM poolStep []

/-- `DatastoreClient._get_ip_pools_with_keys` (lines 199-219): not-found on
the pool directory is interpreted as "no configured pools". -/
def getPoolsWithKeys (s : Store) (version : String) :
    Except Err (List (IPNet × String)) :=
  match readChildren s (poolRoot version) with
  | .error _ => .ok []
  | .ok ns => poolsFromChildren ns

/-- `DatastoreClient.get_ip_pools` (lines 182-197): the dict's keys. -/
def get_ip_pools (s : Store) (version : String) : Except Err (List IPNet) :=
  (getPoolsWithKeys s version).map (fun d => d.map (fun e => e.1))

/-- `DatastoreClient.add_ip_pool` (lines 221-241): normalize to
`pool.cidr`, re-read the pools, return silently when present, else
append-write `str(pool)`.  (The `assert version in ("v4", "v6")` guard is
carried as a hypothesis by the theorems.) -/
def add_ip_pool (s : Store) (version : String) (pool : IPNet) : Except Err Store := do
  let pc := pool.cidr
  let pools ← get_ip_pools s version
  if pools.any (fun q => eqNet pc q) then .ok s
  else .ok (appendWrite s (poolRoot version) (Val.raw (strOfNet pc)))

/-- Python dict lookup keyed by `IPNetwork`. -/
def poolLookup (d : List (IPNet × String)) (k : IPNet) : Option String :=
  (d.find? (fun e => eqNet e.1 k)).map (fun e => e.2)

/-- `DatastoreClient.del_ip_pool` (lines 243-261): look the normalized
pool up in the freshly-read pool-to-key dict and delete that key; a
`KeyError` from the lookup (or the delete) is re-raised as
`KeyError("%s is not a configured IP pool." % pool)` — note the message
uses the un-normalized `pool` argument. -/
def del_ip_pool (s : Store) (version : String) (pool : IPNet) : Except Err Store := do
  let pools ← getPoolsWithKeys s version
  match poolLookup pools pool.cidr with
  | some key =>
    match deleteKey s key with
    | .ok s1 => .ok s1
    | .error _ => .error (.keyErr (strOfNet pool ++ " is not a configured IP pool."))
  | none => .error (.keyErr (strOfNet pool ++ " is not a configured IP pool."))

/-- Attempt to read a stored value as an IP address, as
`IPAddress(node.value)` does: a directory's `None` value and any
non-address string raise `AddrFormatError` (mapped to `none` here because
`get_default_next_hops` catches exactly that error). -/
def valAsAddr (v : Option Val) : Option IPAddr :=
  match v with
  | some (Val.raw str) => parseAddrStr str
  | _ => none

/-- `DatastoreClient.get_default_next_hops` (lines 463-489): read the two
host addresses (not-found propagates), then store under key 4 / key 6
whatever `IPAddress` accepts — there is no check that the parsed address
has the matching version. -/
def get_default_next_hops (s : Store) (h : String) :
    Except Err (List (Nat × IPAddr)) := do
  let v4 ← readNodeValue s (hostPathOf h ++ "bird_ip")
  let v6 ← readNodeValue s (hostPathOf h ++ "bird6_ip")
  let m : List (Nat × IPAddr) :=
    match valAsAddr v4 with
    | some a => [(4, a)]
    | none => []
  let m : List (Nat × IPAddr) :=
    match valAsAddr v6 with
    | some a => m ++ [(6, a)]
    | none => m
  .ok m

/-! ### Host tree (`get_hosts`, lines 422-461) -/

/-- The nested structure `get_hosts` builds (a `Vividict` tree whose
leaves are the `addrs`/`mac`/`state` entries of an endpoint record). -/
inductive HT
  | d (entries : List (String × HT))
  | ls (addrs : List String)
  | s (v : String)

/-- Python set union `s1 | s2` for `IPNetwork` sets. -/
def pySetUnion (a b : List IPNet) : List IPNet := b.foldl netSetAdd a

/-- The three `ep_dict` assignments (lines 453-456), in source order. -/
def epRecord (ep : Endpoint) : List (String × HT) :=
  [("addrs", HT.ls ((pySetUnion ep.ipv4_nets ep.ipv6_nets).map strOfNet)),
   ("mac", HT.s ep.mac),
   ("state", HT.s ep.state)]

/-- Auto-vivifying nested assignment
`hosts[host][type][container][endpoint][...] = ...`: descend the path,
creating empty dicts for missing keys, then set the record fields in
order into the final dict. -/
def htSetPath : List String → HT → List (String × HT) → HT
  | [], HT.d l, fields => HT.d (fields.foldl (fun acc kv => dictSet acc kv.1 kv.2) l)
  | k :: ks, HT.d l, fields =>
    HT.d (dictSet l k (htSetPath ks ((dictFind l k).getD (HT.d [])) fields))
  | _, t, _ => t

/-- `if not hosts[host]: hosts[host] = Vividict()` — evaluating
`hosts[host]` vivifies the key, and a falsy (empty) value is replaced by a
fresh empty dict; the net effect is to ensure the key maps to a dict,
preserving a non-empty one. -/
def htEnsure (t : HT) (host : String) : HT :=
  match t with
  | HT.d l =>
    match dictFind l host with
    | some (HT.d []) => HT.d (dictSet l host (HT.d []))
    | none => HT.d (dictSet l host (HT.d []))
    | some _ => HT.d l
  | t => t

/-- `key.split("/")` as a list of strings. -/
def splitSlash (k : String) : List String :=
  (splitOnChar '/' k.data).map String.mk

/-- One iteration of the `get_hosts` loop (lines 441-456): keys with 5-8
slots are directory markers and only ensure the host key (slot 3) exists;
keys with exactly 9 slots are endpoint documents. -/
def hostsStep (acc : HT) (n : ENode) : Except Err HT :=
  let packed := splitSlash n.key
  if 4 < packed.length ∧ packed.length < 9 then
    .ok (htEnsure acc (packed.getD 3 ""))
  else if packed.length = 9 then
    match packed with
    | [_, _, _, host, _, container_type, container_id, _, endpoint_id] =>
      match n.value with
      | some (Val.endpoint p) => do
        let ep ← Endpoint.from_json endpoint_id p
        .ok (htSetPath [host, container_type, container_id, endpoint_id] acc
              (epRecord ep))
      | _ => .error (.valueErr "invalid endpoint document")
    | _ => .ok acc
  else .ok acc

/-- `DatastoreClient.get_hosts` (lines 422-461): fold the loop over the
leaves of one recursive read of `/calico/host`; a not-found on that read
is caught (`except KeyError`) and yields the empty tree.
`AddrFormatError` from decoding an endpoint propagates. -/
def get_hosts (s : Store) : Except Err HT :=
  match readLeaves s "/calico/host" with
  | .error _ => .ok (HT.d [])
  | .ok ls => ls.foldlM hostsStep (HT.d [])

/-! ### Endpoint resolution and workload/profile assignment
(lines 358-419) -/

/-- The strict 9-way unpack `(_, ..., endpoint_id) = key.split("/", 8)`;
fewer parts would raise a `ValueError`. -/
def epIdOfKey (k : String) : Except Err String :=
  let parts := splitMax '/' 8 k.data
  if parts.length = 9 then .ok (String.mk (parts.getLastD []))
  else .error (.valueErr "unpack")

/-- `DatastoreClient.get_ep_id_from_cont` (lines 374-392): list the
container's endpoint directory (not-found re-raised as
`KeyError("Container with ID %s was not found." % container_id)`), then
take the first leaf's last key slot. -/
def get_ep_id_from_cont (s : Store) (h container_id : String) : Except Err String :=
  match readLeaves s (localEndpointsPath h container_id) with
  | .error _ =>
    .error (.keyErr ("Container with ID " ++ container_id ++ " was not found."))
  | .ok ls =>
    match ls with
    | [] => .error (.valueErr "StopIteration")
    | n :: _ => epIdOfKey n.key

/-- `DatastoreClient.get_endpoint` (lines 394-406). -/
def get_endpoint (s : Store) (h container_id endpoint_id : String) :
    Except Err Endpoint := do
  let v ← readNodeValue s (endpointPath h container_id endpoint_id)
  match v with
  | some (Val.endpoint p) => Endpoint.from_json endpoint_id p
  | _ => .error (.valueErr "not an endpoint document")

/-- `DatastoreClient.set_endpoint` (lines 408-419). -/
def set_endpoint (s : Store) (h container_id : String) (e : Endpoint) : Store :=
  writeKey s (endpointPath h container_id e.ep_id) (Val.endpoint e.to_json)

/-- `DatastoreClient.add_workload_to_group` (lines 358-364): resolve the
endpoint, decode it, set `profile_id` and write it back. -/
def add_workload_to_group (s : Store) (h group_name container_id : String) :
    Except Err Store := do
  let eid ← get_ep_id_from_cont s h container_id
  let ep ← get_endpoint s h container_id eid
  .ok (set_endpoint s h container_id { ep with profile_id := some group_name })

/-- `DatastoreClient.remove_workload_from_group` (lines 366-372). -/
def remove_workload_from_group (s : Store) (h container_id : String) :
    Except Err Store := do
  let eid ← get_ep_id_from_cont s h container_id
  let ep ← get_endpoint s h container_id eid
  .ok (set_endpoint s h container_id { ep with profile_id := none })

/-! ## Support lemmas: store primitives -/

theorem normChars_of_last_ne {cs : List Char} {c : Char} (h : c ≠ '/') :
    normChars (cs ++ [c]) = cs ++ [c] := by
  have hb : (c == '/') = false := by simpa using h
  simp [normChars, List.dropWhile_cons, hb]

theorem normPath_of_last_ne {p : String} {cs : List Char} {c : Char}
    (hdata : p.data = cs ++ [c]) (h : c ≠ '/') : normPath p = p := by
  apply String.ext
  show normChars p.data = p.data
  rw [hdata, normChars_of_last_ne h]

theorem find?_some_of_any {α : Type} (p : α → Bool) (l : List α) (h : l.any p = true) :
    ∃ a, l.find? p = some a := by
  induction l with
  | nil => simp at h
  | cons a l ih =>
    by_cases pa : p a = true
    · exact ⟨a, by simp [List.find?, pa]⟩
    · have hb : p a = false := by simpa using pa
      simp only [List.any_cons, hb, Bool.false_or] at h
      obtain ⟨m, hm⟩ := ih h
      exact ⟨m, by simp [List.find?, hb, hm]⟩

theorem find?_none_of_not_any {α : Type} (p : α → Bool) (l : List α)
    (h : l.any p = false) : l.find? p = none := by
  induction l with
  | nil => rfl
  | cons a l ih =>
    simp only [List.any_cons, Bool.or_eq_false_iff] at h
    simp [List.find?, h.1, ih h.2]

theorem find?_pred {α : Type} (p : α → Bool) (l : List α) (a : α)
    (h : l.find? p = some a) : p a = true := by
  induction l with
  | nil => exact absurd h (by simp [List.find?])
  | cons b l ih =>
    by_cases pb : p b = true
    · simp only [List.find?, pb] at h
      cases Option.some.inj h
      exact pb
    · have hb : p b = false := by simpa using pb
      simp only [List.find?, hb] at h
      exact ih h

theorem find?_mem {α : Type} (p : α → Bool) (l : List α) (a : α)
    (h : l.find? p = some a) : a ∈ l := by
  induction l with
  | nil => exact absurd h (by simp [List.find?])
  | cons b l ih =>
    by_cases pb : p b = true
    · simp only [List.find?, pb] at h
      cases Option.some.inj h
      exact List.mem_cons_self _ _
    · have hb : p b = false := by simpa using pb
      simp only [List.find?, hb] at h
      exact List.mem_cons_of_mem _ (ih h)

theorem find?_append_my {α : Type} (p : α → Bool) (l1 l2 : List α) :
    (l1 ++ l2).find? p
      = match l1.find? p with
        | some a => some a
        | none => l2.find? p := by
  induction l1 with
  | nil => simp [List.find?]
  | cons a l1 ih =>
    by_cases ha : p a = true
    · simp [List.find?, ha]
    · simp only [Bool.not_eq_true] at ha
      simp [List.find?, ha, ih]

theorem find?_map_pred (s : Store) (k : String) (v : Val) (q : String) :
    ((s.map fun n => if n.key == k then ENode.mk n.key (some v) else n).find?
        fun n => n.key == q)
      = ((s.find? fun n => n.key == q).map
          fun n => if n.key == k then ENode.mk n.key (some v) else n) := by
  induction s with
  | nil => simp [List.find?]
  | cons a s ih =>
    by_cases ha : (a.key == q) = true
    · have hkey : ((if a.key == k then ENode.mk a.key (some v) else a).key == q) = true := by
        by_cases hk : (a.key == k) = true <;> simp [hk, ha]
      simp only [List.map_cons, List.find?, hkey, ha]
      rfl
    · have hb : (a.key == q) = false := by simpa using ha
      have hkey : ((if a.key == k then ENode.mk a.key (some v) else a).key == q) = false := by
        by_cases hk : (a.key == k) = true <;> simp [hk, hb]
      simp only [List.map_cons, List.find?, hkey, hb, ih]

theorem findNode_writeKey_self (s : Store) (p : String) (v : Val) :
    ∃ nk, findNode (writeKey s p v) p = some ⟨nk, some v⟩ := by
  unfold findNode writeKey
  by_cases hany : (s.any fun n => n.key == normPath p) = true
  · rw [if_pos hany, find?_map_pred]
    obtain ⟨m, hm⟩ := find?_some_of_any _ s hany
    have hmk : (m.key == normPath p) = true := find?_pred _ s m hm
    refine ⟨m.key, ?_⟩
    rw [hm]
    simp only [Option.map_some']
    rw [if_pos hmk]
  · rw [if_neg hany, find?_append_my]
    have hnone : (s.find? fun n => n.key == normPath p) = none :=
      find?_none_of_not_any _ s (by simpa using hany)
    rw [hnone]
    exact ⟨normPath p, by simp [List.find?]⟩

theorem readNodeValue_writeKey_self (s : Store) (p : String) (v : Val) :
    readNodeValue (writeKey s p v) p = .ok (some v) := by
  obtain ⟨nk, hnk⟩ := findNode_writeKey_self s p v
  simp [readNodeValue, hnk]

theorem findNode_writeKey_other (s : Store) (p q : String) (v : Val)
    (hne : normPath q ≠ normPath p) :
    findNode (writeKey s p v) q = findNode s q := by
  unfold findNode writeKey
  by_cases hany : (s.any fun n => n.key == normPath p) = true
  · rw [if_pos hany, find?_map_pred]
    rcases hfound : s.find? fun n => n.key == normPath q with _ | m
    · rw [hfound]
      rfl
    · have hmq : (m.key == normPath q) = true := find?_pred _ s m hfound
      have hmk : (m.key == normPath p) = false := by
        simp only [beq_eq_false_iff_ne, ne_eq]
        intro hk
        exact hne ((eq_of_beq hmq).symm.trans hk)
      rw [hfound]
      simp only [Option.map_some']
      rw [if_neg (by simpa using hmk)]
  · rw [if_neg hany, find?_append_my]
    rcases hfound : s.find? fun n => n.key == normPath q with _ | m
    · have hnp : ((normPath p : String) == normPath q) = false := by
        simp only [beq_eq_false_iff_ne, ne_eq]
        exact fun hpq => hne hpq.symm
      rw [hfound]
      simp [List.find?, hnp]
    · rw [hfound]

theorem readNodeValue_writeKey_other (s : Store) (p q : String) (v : Val)
    (hne : normPath q ≠ normPath p) :
    readNodeValue (writeKey s p v) q = readNodeValue s q := by
  unfold readNodeValue
  rw [findNode_writeKey_other s p q v hne]

/-! ## Support lemmas: the endpoint codec -/

theorem except_bind_ok {e a b : Type} (x : a) (f : a → Except e b) :
    (Except.ok x >>= f) = f x := rfl

theorem except_bind_err {e a b : Type} (err : e) (f : a → Except e b) :
    ((Except.error err : Except e a) >>= f) = .error err := rfl

theorem except_pure {e a : Type} (x : a) : (pure x : Except e a) = .ok x := rfl

theorem strOfNet_ne_empty (n : IPNet) : strOfNet n ≠ "" := by
  intro h
  have : netChars n = [] := congrArg String.data h
  simp [netChars] at this

/-- The value an optional gateway settles to after one encode/decode
round trip: a zero-valued gateway is dropped by the truthiness check in
`to_json`, everything else survives. -/
def gwFilter (g : Option IPAddr) : Option IPAddr :=
  match g with
  | some a => if addrTruthy a then some a else none
  | none => none

theorem parseGw_gwEmit {g : Option IPAddr} (hWF : ∀ a, g = some a → a.WF) :
    parseGw (gwEmit g) = .ok (gwFilter g) := by
  match g with
  | none => rfl
  | some a =>
    by_cases ht : addrTruthy a = true
    · simp only [gwEmit, gwFilter, ht, if_true]
      simp only [parseGw, if_neg (strOfAddr_ne_empty a),
        parseAddrStr_strOfAddr (hWF a rfl)]
    · have hf : addrTruthy a = false := by simpa using ht
      simp [gwEmit, gwFilter, hf, parseGw]

theorem parseGw_WF {o : Option String} {a : IPAddr}
    (h : parseGw o = .ok (some a)) : a.WF := by
  match o with
  | none => simp [parseGw] at h
  | some str =>
    by_cases he : str = ""
    · simp [parseGw, he] at h
    · simp only [parseGw, if_neg he] at h
      rcases hp : parseAddrStr str with _ | b
      · rw [hp] at h
        exact absurd h (by simp)
      · rw [hp] at h
        cases Except.ok.inj h
        exact parseIPAddr_WF hp

theorem netSetAdd_mem {acc : List IPNet} {n y : IPNet} (h : y ∈ netSetAdd acc n) :
    y ∈ acc ∨ y = n := by
  unfold netSetAdd at h
  split at h
  · exact Or.inl h
  · rcases List.mem_append.mp h with h | h
    · exact Or.inl h
    · exact Or.inr (List.mem_singleton.mp h)

theorem netSetAdd_any (acc : List IPNet) (n x : IPNet) :
    (netSetAdd acc n).any (fun y => eqNet y x)
      = (acc.any (fun y => eqNet y x) || eqNet n x) := by
  unfold netSetAdd
  by_cases hmem : (acc.any fun y => eqNet y n) = true
  · rw [if_pos hmem]
    rcases heq : eqNet n x with _ | _
    · simp
    · obtain ⟨y, hy, hyn⟩ := List.any_eq_true.mp hmem
      have hyx : eqNet y x = true := eqNet_trans hyn heq
      have : acc.any (fun y => eqNet y x) = true := List.any_eq_true.mpr ⟨y, hy, hyx⟩
      simp [this]
  · rw [if_neg hmem]
    simp [List.any_append]

theorem foldlM_netStep_print (l : List IPNet) :
    ∀ acc : List IPNet, (∀ x ∈ l, x.WF) →
    (∀ y ∈ acc, ∀ x ∈ l, eqNet y x = false) →
    l.Pairwise (fun a b => eqNet a b = false) →
    (l.map strOfNet).foldlM netStep acc = .ok (acc ++ l) := by
  induction l with
  | nil => intro acc _ _ _; simp [except_pure]
  | cons x xs ih =>
    intro acc hWF hacc hpair
    have hx : parseNetStr (strOfNet x) = some x :=
      parseNetStr_strOfNet (hWF x (List.mem_cons_self _ _))
    have hnoacc : (acc.any fun y => eqNet y x) = false := by
      rw [List.any_eq_false]
      exact fun y hy => by simp [hacc y hy x (List.mem_cons_self _ _)]
    have hstep : netStep acc (strOfNet x) = .ok (acc ++ [x]) := by
      simp only [netStep, hx, netSetAdd, hnoacc]
      rfl
    rw [List.map_cons, List.foldlM_cons, hstep]
    have hpair' := (List.pairwise_cons.mp hpair)
    have := ih (acc ++ [x]) (fun z hz => hWF z (List.mem_cons_of_mem _ hz))
      (by
        intro y hy z hz
        rcases List.mem_append.mp hy with h | h
        · exact hacc y h z (List.mem_cons_of_mem _ hz)
        · cases List.mem_singleton.mp h
          exact hpair'.1 z hz)
      hpair'.2
    simp only [except_bind_ok]
    rw [this, List.append_assoc]
    rfl

theorem parseNetList_print (l : List IPNet) (hWF : ∀ x ∈ l, x.WF)
    (hpair : l.Pairwise (fun a b => eqNet a b = false)) :
    parseNetList (l.map strOfNet) = .ok l := by
  have := foldlM_netStep_print l [] hWF (by simp) hpair
  simpa [parseNetList] using this

/-- Whether the string `s` denotes (parses to) a network equal to `x`. -/
def netStrMatch (s : String) (x : IPNet) : Bool :=
  match parseNetStr s with
  | some n => eqNet n x
  | none => false

/-- Whether the string list denotes a network set containing `x`. -/
def netsDenote (ss : List String) (x : IPNet) : Bool :=
  ss.any (fun s => netStrMatch s x)

theorem foldlM_netStep_any (ss : List String) :
    ∀ acc l : List IPNet, ss.foldlM netStep acc = .ok l →
    ∀ x : IPNet, l.any (fun n => eqNet n x)
      = (acc.any (fun n => eqNet n x) || netsDenote ss x) := by
  induction ss with
  | nil =>
    intro acc l h x
    cases Except.ok.inj h
    simp [netsDenote]
  | cons str ss ih =>
    intro acc l h x
    rw [List.foldlM_cons] at h
    rcases hp : parseNetStr str with _ | n
    · rw [show netStep acc str = .error (.addrFormat str) by unfold netStep; rw [hp]] at h
      rw [except_bind_err] at h
      exact Except.noConfusion h
    · rw [show netStep acc str = .ok (netSetAdd acc n) by unfold netStep; rw [hp]] at h
      simp only [except_bind_ok] at h
      have := ih (netSetAdd acc n) l h x
      rw [this, netSetAdd_any]
      simp only [netsDenote, List.any_cons, netStrMatch, hp]
      rw [Bool.or_assoc]

theorem parseNetList_any {ss : List String} {l : List IPNet}
    (h : parseNetList ss = .ok l) (x : IPNet) :
    l.any (fun n => eqNet n x) = netsDenote ss x := by
  have := foldlM_netStep_any ss [] l h x
  simpa using this

theorem foldlM_netStep_WF (ss : List String) :
    ∀ acc l : List IPNet, ss.foldlM netStep acc = .ok l →
    (∀ y ∈ acc, y.WF) → ∀ n ∈ l, n.WF := by
  induction ss with
  | nil =>
    intro acc l h hacc
    cases Except.ok.inj h
    exact hacc
  | cons str ss ih =>
    intro acc l h hacc
    rcases hp : parseNetStr str with _ | n
    · rw [List.foldlM_cons,
        show netStep acc str = .error (.addrFormat str) by unfold netStep; rw [hp]] at h
      rw [except_bind_err] at h
      exact Except.noConfusion h
    · rw [List.foldlM_cons,
        show netStep acc str = .ok (netSetAdd acc n) by unfold netStep; rw [hp]] at h
      simp only [except_bind_ok] at h
      refine ih (netSetAdd acc n) l h ?_
      intro y hy
      rcases netSetAdd_mem hy with hmem | rfl
      · exact hacc y hmem
      · exact parseIPNet_WF hp

theorem parseNetList_WF {ss : List String} {l : List IPNet}
    (h : parseNetList ss = .ok l) : ∀ n ∈ l, n.WF :=
  foldlM_netStep_WF ss [] l h (by simp)

theorem netsDenote_map_strOfNet (l : List IPNet) (hWF : ∀ n ∈ l, n.WF) (x : IPNet) :
    netsDenote (l.map strOfNet) x = l.any (fun n => eqNet n x) := by
  induction l with
  | nil => rfl
  | cons n ns ih =>
    have hn : parseNetStr (strOfNet n) = some n :=
      parseNetStr_strOfNet (hWF n (List.mem_cons_self _ _))
    simp only [netsDenote, List.map_cons, List.any_cons] at *
    rw [show netStrMatch (strOfNet n) x = eqNet n x by simp [netStrMatch, hn]]
    rw [ih (fun m hm => hWF m (List.mem_cons_of_mem _ hm))]

theorem from_json_inv {eid : String} {p : Payload} {ep : Endpoint}
    (h : Endpoint.from_json eid p = .ok ep) :
    parseNetList p.ipv4_nets = .ok ep.ipv4_nets ∧
    parseNetList p.ipv6_nets = .ok ep.ipv6_nets ∧
    parseGw p.ipv4_gateway = .ok ep.ipv4_gateway ∧
    parseGw p.ipv6_gateway = .ok ep.ipv6_gateway ∧
    ep.ep_id = eid ∧ ep.state = p.state ∧ ep.mac = p.mac ∧
    ep.profile_id = p.profile_id := by
  unfold Endpoint.from_json at h
  rcases h4 : parseNetList p.ipv4_nets with e4 | n4 <;> rw [h4] at h
  · simp only [except_bind_ok, except_bind_err] at h
    exact Except.noConfusion h
  rcases h6 : parseNetList p.ipv6_nets with e6 | n6 <;> rw [h6] at h
  · simp only [except_bind_ok, except_bind_err] at h
    exact Except.noConfusion h
  rcases hg4 : parseGw p.ipv4_gateway with eg4 | g4 <;> rw [hg4] at h
  · simp only [except_bind_ok, except_bind_err] at h
    exact Except.noConfusion h
  rcases hg6 : parseGw p.ipv6_gateway with eg6 | g6 <;> rw [hg6] at h
  · simp only [except_bind_ok, except_bind_err] at h
    exact Except.noConfusion h
  simp only [except_bind_ok] at h
  cases Except.ok.inj h
  exact ⟨rfl, rfl, rfl, rfl, rfl, rfl, rfl, rfl⟩

instance (a : IPAddr) : Decidable a.WF :=
  show Decidable (a.val < 2 ^ a.ver.width) from inferInstance

instance (n : IPNet) : Decidable n.WF :=
  show Decidable (n.val < 2 ^ n.ver.width ∧ n.plen ≤ n.ver.width) from inferInstance

/-- Gateways whose round trip is lossless: well-formed and nonzero (the
zero address is falsy in netaddr 0.7.x and is dropped by `to_json`). -/
def gwOK : Option IPAddr → Prop
  | some a => a.WF ∧ a.val ≠ 0
  | none => True

instance (g : Option IPAddr) : Decidable (gwOK g) :=
  match g with
  | some a => show Decidable (a.WF ∧ a.val ≠ 0) from inferInstance
  | none => .isTrue trivial

theorem gwFilter_eq_self {g : Option IPAddr} (hg : gwOK g) : gwFilter g = g := by
  match g with
  | none => rfl
  | some a =>
    have ht : addrTruthy a = true := by
      simp only [addrTruthy, bne_iff_ne, ne_eq]
      exact hg.2
    simp [gwFilter, ht]

theorem gwOK_WF {g : Option IPAddr} (hg : gwOK g) : ∀ a, g = some a → a.WF := by
  intro a ha
  subst ha
  exact hg.1

/-! ## Claim C1 — Endpoint codec round trip -/

/-- C1 (amended form).  Round-trip law of the Endpoint codec:
`Endpoint.from_json(e.ep_id, e.to_json())` reconstructs `e` field by
field, for every endpoint `e` whose network sets hold well-formed,
pairwise-distinct networks and whose gateways, when present, are
well-formed and nonzero.  (The original claim, quantified over *all*
optional gateways, fails: netaddr 0.7.x's zero-valued `IPAddress` is
falsy, so `to_json` emits `null` for a `0.0.0.0`/`::` gateway and the
round trip drops it — see the counterexample.) -/
theorem endpoint_roundtrip (e : Endpoint)
    (h4 : ∀ x ∈ e.ipv4_nets, x.WF) (h6 : ∀ x ∈ e.ipv6_nets, x.WF)
    (hd4 : e.ipv4_nets.Pairwise (fun a b => eqNet a b = false))
    (hd6 : e.ipv6_nets.Pairwise (fun a b => eqNet a b = false))
    (hg4 : gwOK e.ipv4_gateway) (hg6 : gwOK e.ipv6_gateway) :
    Endpoint.from_json e.ep_id e.to_json = .ok e := by
  obtain ⟨eid, st, mac, pid, n4, n6, g4, g6⟩ := e
  show Endpoint.from_json eid
      (Endpoint.to_json ⟨eid, st, mac, pid, n4, n6, g4, g6⟩)
    = .ok ⟨eid, st, mac, pid, n4, n6, g4, g6⟩
  unfold Endpoint.to_json Endpoint.from_json
  dsimp only
  rw [parseNetList_print n4 h4 hd4, except_bind_ok,
      parseNetList_print n6 h6 hd6, except_bind_ok,
      parseGw_gwEmit (gwOK_WF hg4), except_bind_ok,
      parseGw_gwEmit (gwOK_WF hg6), except_bind_ok,
      gwFilter_eq_self hg4, gwFilter_eq_self hg6]

/-- A concrete endpoint with nets in both families, a profile and two
nonzero gateways, used to witness the round-trip theorem. -/
def epWitness : Endpoint :=
  { ep_id := "endpoint-1234567890", state := "active", mac := "11:22:33:44:55:66",
    profile_id := some "PROF_A",
    ipv4_nets := [⟨.v4, 167772160, 8⟩, ⟨.v4, 167772161, 32⟩],
    ipv6_nets := [⟨.v6, 1, 128⟩],
    ipv4_gateway := some ⟨.v4, 167772161⟩,
    ipv6_gateway := some ⟨.v6, 5⟩ }

/-- Witness for `endpoint_roundtrip` at `epWitness`, discharging every
hypothesis by computation. -/
theorem endpoint_roundtrip_witness :
    (∀ x ∈ epWitness.ipv4_nets, x.WF) ∧
    Endpoint.from_json epWitness.ep_id epWitness.to_json = .ok epWitness :=
  ⟨by decide,
   endpoint_roundtrip epWitness (by decide) (by decide) (by decide) (by decide)
     (by decide) (by decide)⟩

/-- An endpoint whose IPv4 gateway is the zero address `0.0.0.0`. -/
def epZeroGw : Endpoint :=
  { ep_id := "e1", state := "active", mac := "aa:bb", profile_id := none,
    ipv4_nets := [], ipv6_nets := [],
    ipv4_gateway := some ⟨.v4, 0⟩, ipv6_gateway := none }

/-- Counterexample to C1 as stated: for the endpoint with gateway
`0.0.0.0`, decoding the encoding yields an endpoint whose `ipv4_gateway`
is absent, so the fields do not all equal those of the input. -/
theorem endpoint_roundtrip_zero_gateway_cex :
    Endpoint.from_json epZeroGw.ep_id epZeroGw.to_json
      = .ok { epZeroGw with ipv4_gateway := none } ∧
    ({ epZeroGw with ipv4_gateway := none } : Endpoint) ≠ epZeroGw := by
  exact ⟨rfl, by decide⟩

/-! ## Claim C3 — decoding of gateway fields -/

/-- C3 (amended form).  `from_json`'s handling of the gateway fields: a
`null` or empty-string gateway is treated as absent (the `if gw:`
truthiness check), but a nonempty gateway string that fails address
validation makes `from_json` raise `AddrFormatError` — it is *not*
silently dropped.  (The original claim, that every invalid gateway string
is tolerated and dropped, fails — see the counterexample.) -/
theorem from_json_gateway_handling (id : String) (p : Payload)
    (n4 n6 : List IPNet) (h4 : parseNetList p.ipv4_nets = .ok n4)
    (h6 : parseNetList p.ipv6_nets = .ok n6) :
    ((p.ipv4_gateway = none ∨ p.ipv4_gateway = some "") →
      ∀ g6, parseGw p.ipv6_gateway = .ok g6 →
      Endpoint.from_json id p
        = .ok ⟨id, p.state, p.mac, p.profile_id, n4, n6, none, g6⟩) ∧
    (∀ str, p.ipv4_gateway = some str → str ≠ "" → parseAddrStr str = none →
      Endpoint.from_json id p = .error (.addrFormat str)) ∧
    (∀ g4 str, parseGw p.ipv4_gateway = .ok g4 →
      p.ipv6_gateway = some str → str ≠ "" → parseAddrStr str = none →
      Endpoint.from_json id p = .error (.addrFormat str)) := by
  refine ⟨?_, ?_, ?_⟩
  · intro hgw g6 hg6
    have hg4 : parseGw p.ipv4_gateway = .ok none := by
      rcases hgw with hgw | hgw <;> rw [hgw] <;> rfl
    unfold Endpoint.from_json
    rw [h4, except_bind_ok, h6, except_bind_ok, hg4, except_bind_ok,
        hg6, except_bind_ok]
  · intro str hstr hne hparse
    have hg4 : parseGw p.ipv4_gateway = .error (.addrFormat str) := by
      rw [hstr]
      simp only [parseGw, if_neg hne, hparse]
    unfold Endpoint.from_json
    rw [h4, except_bind_ok, h6, except_bind_ok, hg4, except_bind_err]
  · intro g4 str hg4 hstr hne hparse
    have hg6 : parseGw p.ipv6_gateway = .error (.addrFormat str) := by
      rw [hstr]
      simp only [parseGw, if_neg hne, hparse]
    unfold Endpoint.from_json
    rw [h4, except_bind_ok, h6, except_bind_ok, hg4, except_bind_ok,
        hg6, except_bind_err]

/-- A payload whose IPv4 gateway string is not a valid address. -/
def payloadBadGw : Payload :=
  { state := "active", name := "calie1", mac := "aa:bb", profile_id := none,
    ipv4_nets := [], ipv6_nets := [],
    ipv4_gateway := some "bogus", ipv6_gateway := none }

/-- Witness for `from_json_gateway_handling`: at a concrete payload the
error branch fires exactly as the amended claim says. -/
theorem from_json_gateway_handling_witness :
    Endpoint.from_json "e1" payloadBadGw = .error (.addrFormat "bogus") :=
  (from_json_gateway_handling "e1" payloadBadGw [] [] rfl rfl).2.1
    "bogus" rfl (by decide) rfl

/-- Counterexample to C3 as stated: `from_json` raises `AddrFormatError`
on the payload whose `ipv4_gateway` is the (validation-failing) string
`"bogus"`, instead of succeeding with the gateway absent. -/
theorem from_json_bad_gateway_raises_cex :
    parseAddrStr "bogus" = none ∧
    Endpoint.from_json "e1"
        { state := "s", name := "n", mac := "m", profile_id := none,
          ipv4_nets := [], ipv6_nets := [],
          ipv4_gateway := some "bogus", ipv6_gateway := none }
      = .error (.addrFormat "bogus") := ⟨rfl, rfl⟩

/-! ## Claim C9 — Rule field validation -/

theorem mkRule_aux_err {α : Type} (kvs : List (String × α)) :
    ∀ init : List (String × α), (∃ kv ∈ kvs, kv.1 ∉ ALLOWED_KEYS) →
    ∃ m, kvs.foldlM (fun d kv => ruleSetItem d kv.1 kv.2) init
      = .error (.keyErr m) := by
  induction kvs with
  | nil => intro init h; simp at h
  | cons kv rest ih =>
    intro init h
    by_cases hk : kv.1 ∈ ALLOWED_KEYS
    · have hstep : ruleSetItem init kv.1 kv.2 = .ok (dictSet init kv.1 kv.2) := by
        simp [ruleSetItem, hk]
      rw [List.foldlM_cons, hstep, except_bind_ok]
      refine ih (dictSet init kv.1 kv.2) ?_
      obtain ⟨kv', hkv', hbad⟩ := h
      rcases List.mem_cons.mp hkv' with rfl | hmem
      · exact absurd hk hbad
      · exact ⟨kv', hmem, hbad⟩
    · refine ⟨"Key " ++ kv.1 ++ " is not allowed on Rule.", ?_⟩
      have hstep : ruleSetItem init kv.1 kv.2
          = .error (.keyErr ("Key " ++ kv.1 ++ " is not allowed on Rule.")) := by
        simp [ruleSetItem, hk]
      rw [List.foldlM_cons, hstep, except_bind_err]

theorem mkRule_aux_ok {α : Type} (kvs : List (String × α)) :
    ∀ init : List (String × α), (∀ kv ∈ kvs, kv.1 ∈ ALLOWED_KEYS) →
    (kvs.map (fun kv => kv.1)).Nodup →
    (∀ kv ∈ kvs, (init.any fun e => e.1 == kv.1) = false) →
    kvs.foldlM (fun d kv => ruleSetItem d kv.1 kv.2) init = .ok (init ++ kvs) := by
  induction kvs with
  | nil => intro init _ _ _; simp [except_pure]
  | cons kv rest ih =>
    intro init hall hnd hfresh
    have hk : kv.1 ∈ ALLOWED_KEYS := hall kv (List.mem_cons_self _ _)
    have hnotin : (init.any fun e => e.1 == kv.1) = false :=
      hfresh kv (List.mem_cons_self _ _)
    have hstep : ruleSetItem init kv.1 kv.2 = .ok (init ++ [kv]) := by
      simp only [ruleSetItem, if_pos hk, dictSet, hnotin]
      rfl
    rw [List.foldlM_cons, hstep, except_bind_ok]
    simp only [List.map_cons, List.nodup_cons] at hnd
    have := ih (init ++ [kv])
      (fun kv' h => hall kv' (List.mem_cons_of_mem _ h)) hnd.2
      (by
        intro kv' hkv'
        rw [List.any_append]
        have h1 : (init.any fun e => e.1 == kv'.1) = false :=
          hfresh kv' (List.mem_cons_of_mem _ hkv')
        have h2 : ([kv].any fun e => e.1 == kv'.1) = false := by
          simp only [List.any_cons, List.any_nil, Bool.or_false,
            beq_eq_false_iff_ne, ne_eq]
          intro hkk
          exact hnd.1 (hkk ▸ List.mem_map_of_mem (fun kv => kv.1) hkv')
        rw [h1, h2]
        rfl)
    rw [this, List.append_assoc]
    rfl

/-- C9 (as stated).  `Rule` construction: any keyword argument whose key
lies outside the nine `ALLOWED_KEYS` raises a `KeyError` and no rule
value is produced; construction from allowed (distinct) keys succeeds and
stores exactly the given key-value pairs. -/
theorem rule_field_validation (α : Type) (kvs : List (String × α)) :
    ((∃ kv ∈ kvs, kv.1 ∉ ALLOWED_KEYS) → ∃ m, mkRule kvs = .error (.keyErr m)) ∧
    ((∀ kv ∈ kvs, kv.1 ∈ ALLOWED_KEYS) → (kvs.map (fun kv => kv.1)).Nodup →
      mkRule kvs = .ok kvs) := by
  constructor
  · exact fun h => mkRule_aux_err kvs [] h
  · intro hall hnd
    have := mkRule_aux_ok kvs [] hall hnd (by simp)
    simpa [mkRule] using this

/-- Witness for `rule_field_validation`: a disallowed key `bogus` fails,
and an allowed two-field rule is stored verbatim. -/
theorem rule_field_validation_witness :
    (∃ m, mkRule [("bogus", "1")] = .error (.keyErr m)) ∧
    mkRule [("action", "deny"), ("src_tag", "A")]
      = .ok [("action", "deny"), ("src_tag", "A")] :=
  ⟨(rule_field_validation String [("bogus", "1")]).1
      ⟨("bogus", "1"), by decide, by decide⟩,
   (rule_field_validation String [("action", "deny"), ("src_tag", "A")]).2
      (by decide) (by decide)⟩

/-! ## Claim C2 — profile deletion on a missing profile -/

/-- C2 (code bug).  `delete_group` performs its recursive delete with no
`except KeyError` handler, so deleting a profile whose subtree does not
exist propagates the store's not-found error (`EtcdKeyNotFound`, a
`KeyError`) to the caller — contradicting both the method's own docstring
("or None if the group couldn't be found") and the claim.  Evaluated here
on a store that contains a different profile only. -/
theorem delete_group_missing_profile_raises :
    delete_group [ENode.mk "/calico/policy/profile/other/tags" (some (Val.raw "x"))] "g"
      = .error (.keyErr "/calico/policy/profile/g") := rfl

/-! ## Claim C4 — host tree decoding -/

/-- Store holding only directory markers for host `h1` and container type
`docker` (the explicit directory chain of an empty
`/calico/host/h1/workload/docker`). -/
def hostsStoreMarkers : Store :=
  [⟨"/calico/host", none⟩, ⟨"/calico/host/h1", none⟩,
   ⟨"/calico/host/h1/workload", none⟩,
   ⟨"/calico/host/h1/workload/docker", none⟩]

/-- The endpoint document stored under `h1/docker/c1/endpoint/e1`. -/
def payloadC4 : Payload :=
  { state := "active", name := "calie1", mac := "11:22:33:44:55:66",
    profile_id := none, ipv4_nets := ["10.0.0.1/32"], ipv6_nets := [],
    ipv4_gateway := none, ipv6_gateway := none }

/-- `hostsStoreMarkers` plus one endpoint leaf (9 key slots). -/
def hostsStoreWithEp : Store :=
  hostsStoreMarkers ++
  [⟨"/calico/host/h1/workload/docker/c1", none⟩,
   ⟨"/calico/host/h1/workload/docker/c1/endpoint", none⟩,
   ⟨"/calico/host/h1/workload/docker/c1/endpoint/e1", some (Val.endpoint payloadC4)⟩]

/-- C4 (amended form).  Host-tree decoding: a hosts listing holding only
directory markers for `h1`/`docker` decodes to `{h1: {}}` — the marker
branch records only the host key (slot 3) and never the container type,
so `docker` does *not* appear (the original claim's `{h1: {docker: {}}}`
is refuted by the counterexample); adding the endpoint leaf under
`h1/docker/c1/endpoint/e1` nests its record (addresses as strings, mac,
state) at `h1.docker.c1.e1`; an empty hosts root decodes to the empty
mapping. -/
theorem get_hosts_tree_decoding :
    get_hosts hostsStoreMarkers = .ok (HT.d [("h1", HT.d [])]) ∧
    get_hosts hostsStoreWithEp
      = .ok (HT.d [("h1", HT.d [("docker", HT.d [("c1", HT.d [("e1",
          HT.d [("addrs", HT.ls ["10.0.0.1/32"]),
                ("mac", HT.s "11:22:33:44:55:66"),
                ("state", HT.s "active")])])])])]) ∧
    get_hosts [ENode.mk "/calico/host" none] = .ok (HT.d []) ∧
    get_hosts [] = .ok (HT.d []) := ⟨rfl, rfl, rfl, rfl⟩

/-- Counterexample to C4 as stated: on the marker-only listing the claim
expects `{h1: {docker: {}}}`, but `get_hosts` returns `{h1: {}}` (the
marker branch of the loop never inserts the container-type key). -/
theorem get_hosts_marker_no_docker_cex :
    get_hosts hostsStoreMarkers = .ok (HT.d [("h1", HT.d [])]) ∧
    HT.d [("h1", HT.d [])] ≠ HT.d [("h1", HT.d [("docker", HT.d [])])] := by
  refine ⟨rfl, ?_⟩
  intro h
  simp at h

/-! ## Claim C5 — default policy written by `create_group` -/

theorem tags_key_norm (name : String) :
    normPath (profilePath name ++ "tags") = profilePath name ++ "tags" := by
  have hdata : (profilePath name ++ "tags").data
      = ((profilePath name).data ++ ['t', 'a', 'g']) ++ ['s'] := by
    rw [String.data_append]
    rw [show ("tags" : String).data = ['t', 'a', 'g', 's'] from rfl]
    simp
  exact normPath_of_last_ne hdata (by decide)

theorem rules_key_norm (name : String) :
    normPath (profilePath name ++ "rules") = profilePath name ++ "rules" := by
  have hdata : (profilePath name ++ "rules").data
      = ((profilePath name).data ++ ['r', 'u', 'l', 'e']) ++ ['s'] := by
    rw [String.data_append]
    rw [show ("rules" : String).data = ['r', 'u', 'l', 'e', 's'] from rfl]
    simp
  exact normPath_of_last_ne hdata (by decide)

theorem tags_ne_rules (name : String) :
    normPath (profilePath name ++ "tags") ≠ normPath (profilePath name ++ "rules") := by
  rw [tags_key_norm, rules_key_norm]
  intro h
  have hd := congrArg String.data h
  rw [String.data_append, String.data_append] at hd
  have := List.append_cancel_left hd
  exact absurd this (by decide)

/-- C5 (as stated).  For every prior store content, `create_group name`
succeeds and leaves the profile's `tags` key holding exactly the JSON
list `[name]` and its `rules` key holding the policy whose inbound rules
are `[Rule(src_tag=name), Rule(action="deny")]` in that order and whose
outbound rules are `[Rule(action="allow")]` — a full overwrite of both
keys regardless of what was stored before. -/
theorem create_group_writes_default_policy (s : Store) (name : String) :
    ∃ s1, create_group s name = .ok s1 ∧
      readNodeValue s1 (profilePath name ++ "tags") = .ok (some (Val.tags [name])) ∧
      readNodeValue s1 (profilePath name ++ "rules")
        = .ok (some (Val.rules
            ⟨name, [[("src_tag", name)], [("action", "deny")]],
             [[("action", "allow")]]⟩)) := by
  refine ⟨writeKey (writeKey s (profilePath name ++ "tags") (Val.tags [name]))
      (profilePath name ++ "rules")
      (Val.rules ⟨name, [[("src_tag", name)], [("action", "deny")]],
        [[("action", "allow")]]⟩), rfl, ?_, ?_⟩
  · rw [readNodeValue_writeKey_other _ _ _ _ (tags_ne_rules name)]
    exact readNodeValue_writeKey_self _ _ _
  · exact readNodeValue_writeKey_self _ _ _

/-! ## Claim C8 — next-hop parsing in `get_default_next_hops` -/

/-- C8 (amended form).  With the two bird addresses stored as strings,
the returned mapping contains key 4 exactly when `bird_ip` parses as an
IP address of *either* version (`IPAddress` is tried v4-then-v6 with no
version check — the original claim's "valid IPv4 address" is refuted by
the counterexample), with the parsed address as value, and likewise key 6
for `bird6_ip`; an unparseable value is omitted without error. -/
theorem get_default_next_hops_filters (s : Store) (h : String) (s4 s6 : String)
    (h4 : readNodeValue s (hostPathOf h ++ "bird_ip") = .ok (some (Val.raw s4)))
    (h6 : readNodeValue s (hostPathOf h ++ "bird6_ip") = .ok (some (Val.raw s6))) :
    ∃ m, get_default_next_hops s h = .ok m ∧
      (m.find? (fun e => e.1 == 4)).map (fun e => e.2) = parseAddrStr s4 ∧
      (m.find? (fun e => e.1 == 6)).map (fun e => e.2) = parseAddrStr s6 := by
  unfold get_default_next_hops
  rw [h4, except_bind_ok, h6, except_bind_ok]
  show ∃ m, Except.ok _ = Except.ok m ∧ _
  rcases hp4 : parseAddrStr s4 with _ | a4 <;>
    rcases hp6 : parseAddrStr s6 with _ | a6 <;>
    simp only [valAsAddr, hp4, hp6] <;>
    refine ⟨_, rfl, ?_, ?_⟩ <;>
    simp [List.find?]

/-- Store with a v4 `bird_ip` and an empty `bird6_ip`, to witness
`get_default_next_hops_filters`. -/
def nextHopStoreW : Store :=
  [⟨"/calico/host/h1/bird_ip", some (Val.raw "10.0.0.1")⟩,
   ⟨"/calico/host/h1/bird6_ip", some (Val.raw "")⟩]

/-- Witness for `get_default_next_hops_filters` at `nextHopStoreW`. -/
theorem get_default_next_hops_filters_witness :
    ∃ m, get_default_next_hops nextHopStoreW "h1" = .ok m ∧
      (m.find? (fun e => e.1 == 4)).map (fun e => e.2) = parseAddrStr "10.0.0.1" ∧
      (m.find? (fun e => e.1 == 6)).map (fun e => e.2) = parseAddrStr "" :=
  get_default_next_hops_filters nextHopStoreW "h1" "10.0.0.1" "" rfl rfl

/-- Counterexample to C8 as stated: with `bird_ip` holding the IPv6
string `0:0:0:0:0:0:0:1` — which is *not* a valid IPv4 address — the
mapping nevertheless contains key 4 (bound to the parsed IPv6 address):
the code never checks the version of what `IPAddress` returns. -/
theorem get_default_next_hops_version_cex :
    get_default_next_hops
        [⟨"/calico/host/h1/bird_ip", some (Val.raw "0:0:0:0:0:0:0:1")⟩,
         ⟨"/calico/host/h1/bird6_ip", some (Val.raw "")⟩] "h1"
      = .ok [(4, ⟨IPVer.v6, 1⟩)] ∧
    parseIPv4 ("0:0:0:0:0:0:0:1".data) = none := ⟨rfl, rfl⟩

/-! ## Support lemmas: pool storage -/

theorem stripPref_append (a b : List Char) : stripPref a (a ++ b) = some b := by
  induction a with
  | nil => rfl
  | cons c cs ih => simp [stripPref, ih]

theorem listIsPref_append (a b : List Char) : listIsPref a (a ++ b) = true := by
  induction a with
  | nil => rfl
  | cons c cs ih => simp [listIsPref, ih]

theorem listIsPref_of_stripPref {a k rest : List Char}
    (h : stripPref a k = some rest) : listIsPref a k = true := by
  induction a generalizing k with
  | nil => rfl
  | cons c cs ih =>
    match k with
    | [] => exact absurd h (by simp [stripPref])
    | d :: ds =>
      by_cases hcd : (c == d) = true
      · simp only [stripPref, if_pos hcd] at h
        simp [listIsPref, hcd, ih h]
      · have hcd2 : (c == d) = false := by simpa using hcd
        simp [stripPref, hcd2] at h

theorem natToChars_ne_nil (b n : Nat) : natToChars b n ≠ [] := by
  unfold natToChars
  by_cases h0 : n = 0
  · simp [h0]
  · rw [if_neg h0]
    simp only [ne_eq, List.reverse_eq_nil_iff, List.map_eq_nil_iff]
    exact ndig_ne_nil n (by omega)

theorem contains_eq_false_of_not_mem {l : List Char} {c : Char} (h : c ∉ l) :
    l.contains c = false := by
  induction l with
  | nil => rfl
  | cons a l ih =>
    simp only [List.mem_cons, not_or] at h
    have ha : (c == a) = false := by
      simp only [beq_eq_false_iff_ne, ne_eq]
      exact h.1
    show List.elem c (a :: l) = false
    simp only [List.elem, ha]
    exact ih h.2

theorem freshKey_data (s : Store) (p : String) :
    (freshKey s p).data
      = ((normPath p).data ++ ['/'])
        ++ natToChars 10 (maxSuff s (normPath p) + 1) := by
  simp [freshKey, String.data_append]

theorem isDirectChild_freshKey (s : Store) (p : String) :
    isDirectChild (normPath p) (freshKey s p) = true := by
  unfold isDirectChild
  rw [freshKey_data, stripPref_append]
  have h1 : (natToChars 10 (maxSuff s (normPath p) + 1)).isEmpty = false := by
    simp [List.isEmpty_iff, natToChars_ne_nil]
  have h2 : (natToChars 10 (maxSuff s (normPath p) + 1)).contains '/' = false :=
    contains_eq_false_of_not_mem
      (not_mem_natToChars (by norm_num) (by norm_num) (Or.inr (Or.inr rfl)))
  dsimp only
  rw [h1, h2]
  rfl

theorem keyIsUnder_freshKey (s : Store) (p : String) :
    keyIsUnder (normPath p) (freshKey s p) = true := by
  unfold keyIsUnder
  rw [freshKey_data]
  have hpref : listIsPref ((normPath p).data ++ ['/'])
      (((normPath p).data ++ ['/']) ++ natToChars 10 (maxSuff s (normPath p) + 1))
      = true := listIsPref_append _ _
  rw [hpref]
  simp

theorem keyIsUnder_of_isDirectChild {p k : String}
    (h : isDirectChild p k = true) : keyIsUnder p k = true := by
  unfold isDirectChild at h
  rcases hs : stripPref (p.data ++ ['/']) k.data with _ | rest
  · rw [hs] at h
    simp at h
  · unfold keyIsUnder
    rw [listIsPref_of_stripPref hs]
    simp

theorem childrenOf_nil_of_not_exists {s : Store} {p : String}
    (h : existsUnder s p = false) : childrenOf s p = [] := by
  unfold childrenOf
  rw [List.filter_eq_nil_iff]
  intro n hn hchild
  unfold existsUnder at h
  rw [List.any_eq_false] at h
  exact absurd (keyIsUnder_of_isDirectChild hchild) (by simp [h n hn])

/-- Whether a pool-directory child denotes a pool equal (under the
`IPNetwork` equality) to `x`. -/
def poolChildMatch (x : IPNet) (n : ENode) : Bool :=
  match n.value with
  | some (Val.raw str) =>
    if str = "" then false
    else
      match parseNetStr str with
      | some q => eqNet x q
      | none => false
  | _ => false

theorem poolDictIns_keys_any (d : List (IPNet × String)) (k : IPNet) (v : String)
    (x : IPNet) :
    ((poolDictIns d k v).any fun e => eqNet x e.1)
      = ((d.any fun e => eqNet x e.1) || eqNet x k) := by
  unfold poolDictIns
  by_cases hmem : (d.any fun e => eqNet e.1 k) = true
  · rw [if_pos hmem]
    have hfun : ((fun e : IPNet × String => eqNet x e.1) ∘
        (fun e : IPNet × String => if eqNet e.1 k then (e.1, v) else e))
        = fun e : IPNet × String => eqNet x e.1 := by
      funext e
      by_cases he : eqNet e.1 k = true <;> simp [Function.comp, he]
    rw [List.any_map, hfun]
    rcases hx : eqNet x k with _ | _
    · simp
    · obtain ⟨e, he, hek⟩ := List.any_eq_true.mp hmem
      have hxe : eqNet x e.1 = true := eqNet_trans hx (eqNet_symm hek)
      have hda : (d.any fun e => eqNet x e.1) = true :=
        List.any_eq_true.mpr ⟨e, he, hxe⟩
      simp [hda]
  · rw [if_neg hmem]
    simp [List.any_append]

theorem poolDictIns_mem {d : List (IPNet × String)} {k : IPNet} {v : String}
    {kv : IPNet × String} (h : kv ∈ poolDictIns d k v) :
    kv ∈ d ∨ kv.2 = v := by
  unfold poolDictIns at h
  split at h
  · rcases List.mem_map.mp h with ⟨e, he, heq⟩
    by_cases hek : eqNet e.1 k = true
    · rw [if_pos hek] at heq
      right
      rw [← heq]
    · rw [if_neg hek] at heq
      exact Or.inl (heq ▸ he)
  · rcases List.mem_append.mp h with h | h
    · exact Or.inl h
    · exact Or.inr (congrArg Prod.snd (List.mem_singleton.mp h))

theorem poolStep_none {d : List (IPNet × String)} {n : ENode} (hv : n.value = none) :
    poolStep d n = .ok d := by
  unfold poolStep
  rw [hv]

theorem poolStep_empty {d : List (IPNet × String)} {n : ENode} {str : String}
    (hv : n.value = some (Val.raw str)) (hs : str = "") : poolStep d n = .ok d := by
  unfold poolStep
  rw [hv]
  dsimp only
  rw [if_pos hs]

theorem poolStep_parse {d : List (IPNet × String)} {n : ENode} {str : String}
    {q : IPNet} (hv : n.value = some (Val.raw str)) (hs : ¬str = "")
    (hp : parseNetStr str = some q) :
    poolStep d n = .ok (poolDictIns d q n.key) := by
  unfold poolStep
  rw [hv]
  dsimp only
  rw [if_neg hs, hp]

theorem poolsFold_any (ns : List ENode) :
    ∀ dinit d : List (IPNet × String), ns.foldlM poolStep dinit = .ok d →
    ∀ x : IPNet, (d.any fun e => eqNet x e.1)
      = ((dinit.any fun e => eqNet x e.1) || ns.any (poolChildMatch x)) := by
  induction ns with
  | nil =>
    intro dinit d h x
    cases Except.ok.inj h
    simp
  | cons n ns ih =>
    intro dinit d h x
    rw [List.foldlM_cons] at h
    match hv : n.value with
    | none =>
      rw [poolStep_none hv, except_bind_ok] at h
      rw [ih dinit d h x]
      simp [List.any_cons, poolChildMatch, hv]
    | some (Val.raw str) =>
      by_cases hs : str = ""
      · rw [poolStep_empty hv hs, except_bind_ok] at h
        rw [ih dinit d h x]
        simp [List.any_cons, poolChildMatch, hv, hs]
      · rcases hp : parseNetStr str with _ | q
        · rw [show poolStep dinit n = .error (.addrFormat str) by
            unfold poolStep; rw [hv]; dsimp only; rw [if_neg hs, hp],
            except_bind_err] at h
          exact Except.noConfusion h
        · rw [poolStep_parse hv hs hp, except_bind_ok] at h
          rw [ih _ d h x, poolDictIns_keys_any]
          have hmatch : poolChildMatch x n = eqNet x q := by
            unfold poolChildMatch
            rw [hv]
            dsimp only
            rw [if_neg hs, hp]
          rw [List.any_cons, hmatch, Bool.or_assoc, Bool.or_comm (eqNet x q),
            ← Bool.or_assoc]
    | some (Val.tags ts) =>
      rw [show poolStep dinit n = .error (.addrFormat "invalid CIDR") by
        unfold poolStep; rw [hv], except_bind_err] at h
      exact Except.noConfusion h
    | some (Val.rules r) =>
      rw [show poolStep dinit n = .error (.addrFormat "invalid CIDR") by
        unfold poolStep; rw [hv], except_bind_err] at h
      exact Except.noConfusion h
    | some (Val.endpoint pl) =>
      rw [show poolStep dinit n = .error (.addrFormat "invalid CIDR") by
        unfold poolStep; rw [hv], except_bind_err] at h
      exact Except.noConfusion h

theorem poolsFold_keymem (ns : List ENode) :
    ∀ dinit d : List (IPNet × String), ns.foldlM poolStep dinit = .ok d →
    ∀ kv ∈ d, kv ∈ dinit ∨ ∃ n ∈ ns, n.key = kv.2 := by
  induction ns with
  | nil =>
    intro dinit d h kv hkv
    cases Except.ok.inj h
    exact Or.inl hkv
  | cons n ns ih =>
    intro dinit d h kv hkv
    rw [List.foldlM_cons] at h
    match hv : n.value with
    | none =>
      rw [poolStep_none hv, except_bind_ok] at h
      rcases ih dinit d h kv hkv with hin | ⟨m, hm, hk⟩
      · exact Or.inl hin
      · exact Or.inr ⟨m, List.mem_cons_of_mem _ hm, hk⟩
    | some (Val.raw str) =>
      by_cases hs : str = ""
      · rw [poolStep_empty hv hs, except_bind_ok] at h
        rcases ih dinit d h kv hkv with hin | ⟨m, hm, hk⟩
        · exact Or.inl hin
        · exact Or.inr ⟨m, List.mem_cons_of_mem _ hm, hk⟩
      · rcases hp : parseNetStr str with _ | q
        · rw [show poolStep dinit n = .error (.addrFormat str) by
            unfold poolStep; rw [hv]; dsimp only; rw [if_neg hs, hp],
            except_bind_err] at h
          exact Except.noConfusion h
        · rw [poolStep_parse hv hs hp, except_bind_ok] at h
          rcases ih _ d h kv hkv with hin | ⟨m, hm, hk⟩
          · rcases poolDictIns_mem hin with hin2 | hin2
            · exact Or.inl hin2
            · exact Or.inr ⟨n, List.mem_cons_self _ _, hin2.symm⟩
          · exact Or.inr ⟨m, List.mem_cons_of_mem _ hm, hk⟩
    | some (Val.tags ts) =>
      rw [show poolStep dinit n = .error (.addrFormat "invalid CIDR") by
        unfold poolStep; rw [hv], except_bind_err] at h
      exact Except.noConfusion h
    | some (Val.rules r) =>
      rw [show poolStep dinit n = .error (.addrFormat "invalid CIDR") by
        unfold poolStep; rw [hv], except_bind_err] at h
      exact Except.noConfusion h
    | some (Val.endpoint pl) =>
      rw [show poolStep dinit n = .error (.addrFormat "invalid CIDR") by
        unfold poolStep; rw [hv], except_bind_err] at h
      exact Except.noConfusion h

theorem getPools_children {s : Store} {version : String}
    {d : List (IPNet × String)} (h : getPoolsWithKeys s version = .ok d) :
    poolsFromChildren (childrenOf s (poolRoot version)) = .ok d := by
  unfold getPoolsWithKeys readChildren at h
  by_cases hex : existsUnder s (poolRoot version) = true
  · rw [if_pos hex] at h
    exact h
  · have hex2 : existsUnder s (poolRoot version) = false := by simpa using hex
    rw [hex2] at h
    simp only [Bool.false_eq_true, if_false] at h
    cases Except.ok.inj h
    rw [childrenOf_nil_of_not_exists hex2]
    rfl

theorem get_ip_pools_inv {s : Store} {version : String} {ps : List IPNet}
    (h : get_ip_pools s version = .ok ps) :
    ∃ d, getPoolsWithKeys s version = .ok d ∧ ps = d.map (fun e => e.1) := by
  unfold get_ip_pools at h
  rcases hg : getPoolsWithKeys s version with e | d <;> rw [hg] at h
  · rw [show (Except.error e : Except Err (List (IPNet × String))).map
        (fun d => d.map fun e => e.1) = (Except.error e : Except Err (List IPNet))
      from rfl] at h
    exact Except.noConfusion h
  · rw [show (Except.ok d : Except Err (List (IPNet × String))).map
        (fun d => d.map fun e => e.1)
        = (Except.ok (d.map fun e => e.1) : Except Err (List IPNet))
      from rfl] at h
    exact ⟨d, rfl, (Except.ok.inj h).symm⟩



theorem any_map_fst {β : Type} (d : List (IPNet × β)) (p : IPNet → Bool) :
    ((d.map fun e => e.1).any p) = d.any fun e => p e.1 := by
  induction d with
  | nil => rfl
  | cons kv d ih => simp [List.any_cons, ih]

/-! ## Claim C6 — pool add: normalization and idempotence -/

/-- Number of entries stored in the version's pool directory that denote
a pool equal to `x`. -/
def poolEntryCount (s : Store) (version : String) (x : IPNet) : Nat :=
  (childrenOf s (poolRoot version)).countP (poolChildMatch x)

/-- C6 (as stated).  `add_ip_pool` normalizes the pool to `pool.cidr`
before comparing and writing (the stored value is `str(pool.cidr)` —
e.g. `10.1.1.1/8` is stored as `10.0.0.0/8`, see the witness), and adding
the same pool twice in sequence performs no second write: the second call
returns the store unchanged, leaving exactly one entry for the pool. -/
theorem add_ip_pool_normalizing_idempotent (s : Store) (version : String)
    (pool : IPNet) (ps : List IPNet)
    (_hv : version = "v4" ∨ version = "v6") (hWF : pool.WF)
    (hps : get_ip_pools s version = .ok ps)
    (hnot : (ps.any fun q => eqNet pool.cidr q) = false) :
    ∃ fk,
      add_ip_pool s version pool
        = .ok (s ++ [⟨fk, some (Val.raw (strOfNet pool.cidr))⟩]) ∧
      isDirectChild (normPath (poolRoot version)) fk = true ∧
      add_ip_pool (s ++ [⟨fk, some (Val.raw (strOfNet pool.cidr))⟩]) version pool
        = .ok (s ++ [⟨fk, some (Val.raw (strOfNet pool.cidr))⟩]) ∧
      poolEntryCount (s ++ [⟨fk, some (Val.raw (strOfNet pool.cidr))⟩]) version
          pool.cidr = 1 ∧
      poolEntryCount s version pool.cidr = 0 := by
  obtain ⟨d, hd, hpsd⟩ := get_ip_pools_inv hps
  have hchild := getPools_children hd
  have hdany : (d.any fun e => eqNet pool.cidr e.1) = false := by
    rw [hpsd, any_map_fst] at hnot
    exact hnot
  have hcany : ((childrenOf s (poolRoot version)).any
      (poolChildMatch pool.cidr)) = false := by
    have hfold := poolsFold_any (childrenOf s (poolRoot version)) [] d hchild pool.cidr
    simp only [List.any_nil, Bool.false_or] at hfold
    rw [← hfold]
    exact hdany
  refine ⟨freshKey s (poolRoot version), ?_, isDirectChild_freshKey s _, ?_, ?_, ?_⟩
  · unfold add_ip_pool
    rw [hps, except_bind_ok, hnot]
    rw [if_neg (by simp)]
    rfl
  · set fk := freshKey s (poolRoot version) with hfk
    set nw : ENode := ⟨fk, some (Val.raw (strOfNet pool.cidr))⟩ with hnw
    have hu : keyIsUnder (normPath (poolRoot version)) nw.key = true :=
      keyIsUnder_freshKey s (poolRoot version)
    have hdc : isDirectChild (normPath (poolRoot version)) nw.key = true :=
      isDirectChild_freshKey s (poolRoot version)
    have hex1 : existsUnder (s ++ [nw]) (poolRoot version) = true := by
      unfold existsUnder
      rw [List.any_append]
      simp [hu]
    have hch1 : childrenOf (s ++ [nw]) (poolRoot version)
        = childrenOf s (poolRoot version) ++ [nw] := by
      unfold childrenOf
      rw [List.filter_append]
      congr 1
      simp [hdc]
    have hpf1 : poolsFromChildren (childrenOf (s ++ [nw]) (poolRoot version))
        = .ok (poolDictIns d pool.cidr fk) := by
      rw [hch1]
      unfold poolsFromChildren at *
      rw [List.foldlM_append, hchild, except_bind_ok, List.foldlM_cons,
        poolStep_parse (show nw.value = some (Val.raw (strOfNet pool.cidr)) from rfl)
          (strOfNet_ne_empty _) (parseNetStr_strOfNet (cidr_WF hWF)),
        except_bind_ok]
      rfl
    have hg1 : getPoolsWithKeys (s ++ [nw]) version
        = .ok (poolDictIns d pool.cidr fk) := by
      unfold getPoolsWithKeys readChildren
      rw [if_pos hex1]
      exact hpf1
    have hp1 : get_ip_pools (s ++ [nw]) version
        = .ok ((poolDictIns d pool.cidr fk).map (fun e => e.1)) := by
      unfold get_ip_pools
      rw [hg1]
      rfl
    unfold add_ip_pool
    rw [hp1, except_bind_ok]
    have hany : (((poolDictIns d pool.cidr fk).map (fun e => e.1)).any
        fun q => eqNet pool.cidr q) = true := by
      rw [any_map_fst, poolDictIns_keys_any, eqNet_refl]
      simp
    rw [hany]
    rfl
  · set fk := freshKey s (poolRoot version) with hfk
    set nw : ENode := ⟨fk, some (Val.raw (strOfNet pool.cidr))⟩ with hnw
    have hdc : isDirectChild (normPath (poolRoot version)) nw.key = true :=
      isDirectChild_freshKey s (poolRoot version)
    have hch1 : childrenOf (s ++ [nw]) (poolRoot version)
        = childrenOf s (poolRoot version) ++ [nw] := by
      unfold childrenOf
      rw [List.filter_append]
      congr 1
      simp [hdc]
    have hmatch : poolChildMatch pool.cidr nw = true := by
      unfold poolChildMatch
      rw [show nw.value = some (Val.raw (strOfNet pool.cidr)) from rfl]
      dsimp only
      rw [if_neg (strOfNet_ne_empty _), parseNetStr_strOfNet (cidr_WF hWF)]
      exact eqNet_refl _
    unfold poolEntryCount
    rw [hch1, List.countP_append]
    have hzero : (childrenOf s (poolRoot version)).countP
        (poolChildMatch pool.cidr) = 0 := by
      rw [List.countP_eq_zero]
      intro n hn
      rw [List.any_eq_false] at hcany
      simp [hcany n hn]
    rw [hzero]
    simp [List.countP_cons, hmatch]
  · unfold poolEntryCount
    rw [List.countP_eq_zero]
    intro n hn
    rw [List.any_eq_false] at hcany
    simp [hcany n hn]

/-- Witness for `add_ip_pool_normalizing_idempotent` on the empty store
with the un-normalized pool `10.1.1.1/8` (numeric value 167837953): the
normalization conjunct checks the stored string is `10.0.0.0/8`. -/
theorem add_ip_pool_normalizing_idempotent_witness :
    strOfNet (IPNet.cidr ⟨IPVer.v4, 167837953, 8⟩) = "10.0.0.0/8" ∧
    (∃ fk,
      add_ip_pool [] "v4" ⟨IPVer.v4, 167837953, 8⟩
        = .ok ([] ++ [⟨fk, some (Val.raw (strOfNet (IPNet.cidr ⟨IPVer.v4, 167837953, 8⟩)))⟩]) ∧
      isDirectChild (normPath (poolRoot "v4")) fk = true ∧
      add_ip_pool
          ([] ++ [⟨fk, some (Val.raw (strOfNet (IPNet.cidr ⟨IPVer.v4, 167837953, 8⟩)))⟩])
          "v4" ⟨IPVer.v4, 167837953, 8⟩
        = .ok ([] ++ [⟨fk, some (Val.raw (strOfNet (IPNet.cidr ⟨IPVer.v4, 167837953, 8⟩)))⟩]) ∧
      poolEntryCount
          ([] ++ [⟨fk, some (Val.raw (strOfNet (IPNet.cidr ⟨IPVer.v4, 167837953, 8⟩)))⟩])
          "v4" (IPNet.cidr ⟨IPVer.v4, 167837953, 8⟩) = 1 ∧
      poolEntryCount [] "v4" (IPNet.cidr ⟨IPVer.v4, 167837953, 8⟩) = 0) :=
  ⟨rfl,
   add_ip_pool_normalizing_idempotent [] "v4" ⟨IPVer.v4, 167837953, 8⟩ []
     (Or.inl rfl) (by decide) rfl rfl⟩

/-! ## Claim C7 — pool removal error policy -/

/-- C7 (as stated).  With the pool-to-key dict freshly read: when the
normalized pool is configured, `del_ip_pool` deletes exactly that pool's
store key (a key actually present in the store) and nothing else; when
it is not configured, it raises the domain `KeyError` whose message
names the (un-normalized) pool and says it is not a configured IP pool —
the store's raw not-found never escapes (`_get_ip_pools_with_keys`
absorbs the directory's not-found, and the lookup/delete `KeyError` is
re-raised with the domain message), and in the error case no modified
store is produced. -/
theorem del_ip_pool_error_policy (s : Store) (version : String) (pool : IPNet)
    (pk : List (IPNet × String)) (hpk : getPoolsWithKeys s version = .ok pk) :
    (∀ key, poolLookup pk pool.cidr = some key →
      (∃ n ∈ s, n.key = key) ∧
      del_ip_pool s version pool = .ok (s.filter fun n => !(n.key == key))) ∧
    (poolLookup pk pool.cidr = none →
      del_ip_pool s version pool
        = .error (.keyErr (strOfNet pool ++ " is not a configured IP pool."))) := by
  constructor
  · intro key hlook
    have hnode : ∃ n ∈ s, n.key = key := by
      unfold poolLookup at hlook
      rw [Option.map_eq_some'] at hlook
      obtain ⟨kv, hfind, hkv⟩ := hlook
      have hkvmem : kv ∈ pk := find?_mem _ pk kv hfind
      have hmem := poolsFold_keymem (childrenOf s (poolRoot version)) [] pk
        (getPools_children hpk) kv hkvmem
      rcases hmem with hin | ⟨n, hn, hk⟩
      · simp at hin
      · exact ⟨n, List.mem_of_mem_filter hn, hk.trans hkv⟩
    have hdel : deleteKey s key = .ok (s.filter fun n => !(n.key == key)) := by
      unfold deleteKey
      obtain ⟨n, hn, hk⟩ := hnode
      rw [if_pos (List.any_eq_true.mpr ⟨n, hn, by simp [hk]⟩)]
    refine ⟨hnode, ?_⟩
    unfold del_ip_pool
    rw [hpk, except_bind_ok, hlook]
    dsimp only
    rw [hdel]
  · intro hnone
    unfold del_ip_pool
    rw [hpk, except_bind_ok, hnone]

/-- The store used to witness `del_ip_pool_error_policy`. -/
def poolStoreW : Store := [⟨"/calico/ipam/v4/pool/1", some (Val.raw "10.0.0.0/8")⟩]

/-- Witness for `del_ip_pool_error_policy`: deleting the configured pool
`10.0.0.0/8` removes its key; deleting the unconfigured `11.0.0.0/8`
raises the domain error naming it. -/
theorem del_ip_pool_error_policy_witness :
    del_ip_pool poolStoreW "v4" ⟨IPVer.v4, 167772160, 8⟩
      = .ok (poolStoreW.filter fun n => !(n.key == "/calico/ipam/v4/pool/1")) ∧
    del_ip_pool poolStoreW "v4" ⟨IPVer.v4, 184549376, 8⟩
      = .error (.keyErr (strOfNet (⟨IPVer.v4, 184549376, 8⟩ : IPNet)
          ++ " is not a configured IP pool.")) :=
  ⟨((del_ip_pool_error_policy poolStoreW "v4" ⟨IPVer.v4, 167772160, 8⟩
      [(⟨IPVer.v4, 167772160, 8⟩, "/calico/ipam/v4/pool/1")] rfl).1
      "/calico/ipam/v4/pool/1" rfl).2,
   (del_ip_pool_error_policy poolStoreW "v4" ⟨IPVer.v4, 184549376, 8⟩
      [(⟨IPVer.v4, 167772160, 8⟩, "/calico/ipam/v4/pool/1")] rfl).2 rfl⟩



/-! ## Claim C10 — frame property of workload/profile assignment -/

theorem data_calico_host :
    ("/calico/host/" : String).data
      = '/' :: ("calico".data ++ '/' :: ("host".data ++ ['/'])) := rfl

theorem data_slash : ("/" : String).data = ['/'] := rfl

theorem data_workload_docker :
    ("workload/docker/" : String).data
      = "workload".data ++ '/' :: ("docker".data ++ ['/']) := rfl

theorem data_endpoint_seg :
    ("/endpoint/" : String).data = '/' :: ("endpoint".data ++ ['/']) := rfl

theorem epKey_split (h c eid : String) (hh : '/' ∉ h.data) (hc : '/' ∉ c.data) :
    splitMax '/' 8 ((localEndpointsPath h c ++ eid).data)
      = [[], "calico".data, "host".data, h.data, "workload".data, "docker".data,
         c.data, "endpoint".data, eid.data] := by
  have hdata : (localEndpointsPath h c ++ eid).data
      = [] ++ '/' :: ("calico".data ++ '/' :: ("host".data ++ '/' :: (h.data
        ++ '/' :: ("workload".data ++ '/' :: ("docker".data ++ '/' :: (c.data
        ++ '/' :: ("endpoint".data ++ '/' :: eid.data))))))) := by
    simp [localEndpointsPath, hostPathOf, String.data_append, data_calico_host,
      data_slash, data_workload_docker, data_endpoint_seg]
  rw [hdata]
  rw [splitMax_append 7 _ (by simp)]
  rw [splitMax_append 6 _ (by decide)]
  rw [splitMax_append 5 _ (by decide)]
  rw [splitMax_append 4 _ hh]
  rw [splitMax_append 3 _ (by decide)]
  rw [splitMax_append 2 _ (by decide)]
  rw [splitMax_append 1 _ hc]
  rw [splitMax_append 0 _ (by decide)]
  rw [splitMax_zero]

theorem epIdOfKey_endpointKey (h c eid : String) (hh : '/' ∉ h.data)
    (hc : '/' ∉ c.data) :
    epIdOfKey (localEndpointsPath h c ++ eid) = .ok eid := by
  unfold epIdOfKey
  rw [epKey_split h c eid hh hc]
  simp only [List.length_cons, List.length_nil]
  simp only [if_true]
  rfl

theorem normChars_append_slash (xs : List Char) :
    normChars (xs ++ ['/']) = normChars xs := by
  simp [normChars, List.dropWhile]

theorem normPath_endpointPath (h c eid : String) (hne : eid.data ≠ [])
    (hns : '/' ∉ eid.data) :
    normPath (endpointPath h c eid) = localEndpointsPath h c ++ eid := by
  apply String.ext
  show normChars (endpointPath h c eid).data = (localEndpointsPath h c ++ eid).data
  have hdata : (endpointPath h c eid).data
      = ((localEndpointsPath h c).data ++ eid.data) ++ ['/'] := by
    simp [endpointPath, String.data_append, data_slash]
  rw [hdata, normChars_append_slash]
  obtain ⟨ys, a, hya⟩ := (List.eq_nil_or_concat eid.data).resolve_left hne
  rw [List.concat_eq_append] at hya
  have ha : a ≠ '/' := by
    intro hslash
    exact hns (hya ▸ List.mem_append.mpr (Or.inr (by simp [hslash])))
  rw [String.data_append, hya, ← List.append_assoc]
  exact normChars_of_last_ne ha

/-- C10 (amended form).  With the container's endpoint directory holding
exactly one endpoint document `p` that decodes to `ep`, both
`add_workload_to_group` and `remove_workload_from_group` write back a
single payload at the same endpoint key whose `profile_id` is the only
semantic change: `state` and `mac` are preserved verbatim; the written
network lists denote exactly the networks the read payload denoted (they
are re-serialized to canonical strings with duplicates collapsed); the
written gateways denote the gateways of the decoded endpoint except that
a zero-valued gateway is dropped (netaddr truthiness); and the `name`
field is *rewritten* to the derived interface name `cali + eid[:11]` —
the original claim, that the stored `name`, nets and gateways fields are
preserved verbatim, fails (see the counterexample, where a stored name
`eth0` is overwritten). -/
theorem workload_group_assignment_frame (s : Store) (h c eid g : String)
    (p : Payload) (ep : Endpoint)
    (hh : '/' ∉ h.data) (hc : '/' ∉ c.data)
    (hleaves : readLeaves s (localEndpointsPath h c)
      = .ok [⟨localEndpointsPath h c ++ eid, some (Val.endpoint p)⟩])
    (hread : readNodeValue s (endpointPath h c eid) = .ok (some (Val.endpoint p)))
    (hdec : Endpoint.from_json eid p = .ok ep) :
    ∃ q4 q6 : Payload,
      add_workload_to_group s h g c
        = .ok (writeKey s (endpointPath h c eid) (Val.endpoint q4)) ∧
      remove_workload_from_group s h c
        = .ok (writeKey s (endpointPath h c eid) (Val.endpoint q6)) ∧
      q4.profile_id = some g ∧ q6.profile_id = none ∧
      ∀ q ∈ [q4, q6],
        q.state = p.state ∧ q.mac = p.mac ∧
        q.name = ifPref ++ take11 eid ∧
        (∀ x, netsDenote q.ipv4_nets x = netsDenote p.ipv4_nets x) ∧
        (∀ x, netsDenote q.ipv6_nets x = netsDenote p.ipv6_nets x) ∧
        parseGw q.ipv4_gateway = .ok (gwFilter ep.ipv4_gateway) ∧
        parseGw q.ipv6_gateway = .ok (gwFilter ep.ipv6_gateway) := by
  obtain ⟨hn4, hn6, hg4, hg6, hepid, hst, hmac, hpid⟩ := from_json_inv hdec
  have heid : get_ep_id_from_cont s h c = .ok eid := by
    unfold get_ep_id_from_cont
    rw [hleaves]
    exact epIdOfKey_endpointKey h c eid hh hc
  have hget : get_endpoint s h c eid = .ok ep := by
    unfold get_endpoint
    rw [hread, except_bind_ok]
    exact hdec
  have hWF4 : ∀ n ∈ ep.ipv4_nets, n.WF := parseNetList_WF hn4
  have hWF6 : ∀ n ∈ ep.ipv6_nets, n.WF := parseNetList_WF hn6
  have hframe : ∀ pid : Option String,
      (Endpoint.to_json { ep with profile_id := pid }).state = p.state ∧
      (Endpoint.to_json { ep with profile_id := pid }).mac = p.mac ∧
      (Endpoint.to_json { ep with profile_id := pid }).name = ifPref ++ take11 eid ∧
      (∀ x, netsDenote (Endpoint.to_json { ep with profile_id := pid }).ipv4_nets x
        = netsDenote p.ipv4_nets x) ∧
      (∀ x, netsDenote (Endpoint.to_json { ep with profile_id := pid }).ipv6_nets x
        = netsDenote p.ipv6_nets x) ∧
      parseGw (Endpoint.to_json { ep with profile_id := pid }).ipv4_gateway
        = .ok (gwFilter ep.ipv4_gateway) ∧
      parseGw (Endpoint.to_json { ep with profile_id := pid }).ipv6_gateway
        = .ok (gwFilter ep.ipv6_gateway) := by
    intro pid
    refine ⟨hst, hmac, ?_, ?_, ?_, ?_, ?_⟩
    · show ifPref ++ take11 ep.ep_id = ifPref ++ take11 eid
      rw [hepid]
    · intro x
      show netsDenote (ep.ipv4_nets.map strOfNet) x = netsDenote p.ipv4_nets x
      rw [netsDenote_map_strOfNet ep.ipv4_nets hWF4 x, parseNetList_any hn4 x]
    · intro x
      show netsDenote (ep.ipv6_nets.map strOfNet) x = netsDenote p.ipv6_nets x
      rw [netsDenote_map_strOfNet ep.ipv6_nets hWF6 x, parseNetList_any hn6 x]
    · show parseGw (gwEmit ep.ipv4_gateway) = .ok (gwFilter ep.ipv4_gateway)
      exact parseGw_gwEmit (fun a ha => parseGw_WF (ha ▸ hg4))
    · show parseGw (gwEmit ep.ipv6_gateway) = .ok (gwFilter ep.ipv6_gateway)
      exact parseGw_gwEmit (fun a ha => parseGw_WF (ha ▸ hg6))
  refine ⟨Endpoint.to_json { ep with profile_id := some g },
    Endpoint.to_json { ep with profile_id := none }, ?_, ?_, rfl, rfl, ?_⟩
  · unfold add_workload_to_group
    rw [heid, except_bind_ok, hget, except_bind_ok]
    unfold set_endpoint
    show Except.ok (writeKey s (endpointPath h c ep.ep_id) _) = _
    rw [hepid]
  · unfold remove_workload_from_group
    rw [heid, except_bind_ok, hget, except_bind_ok]
    unfold set_endpoint
    show Except.ok (writeKey s (endpointPath h c ep.ep_id) _) = _
    rw [hepid]
  · intro q hq
    rcases List.mem_cons.mp hq with rfl | hq
    · exact hframe (some g)
    · rcases List.mem_cons.mp hq with rfl | hq
      · exact hframe none
      · simp at hq

/-- The single-endpoint store used to witness
`workload_group_assignment_frame`. -/
def workloadStoreW : Store :=
  [⟨"/calico/host/h1/workload/docker/c1/endpoint/e1",
    some (Val.endpoint
      { state := "active", name := "eth0", mac := "mm", profile_id := none,
        ipv4_nets := [], ipv6_nets := [],
        ipv4_gateway := none, ipv6_gateway := none })⟩]

/-- Witness for `workload_group_assignment_frame` on `workloadStoreW`,
every hypothesis discharged by computation. -/
theorem workload_group_assignment_frame_witness :
    ∃ q4 q6 : Payload,
      add_workload_to_group workloadStoreW "h1" "G" "c1"
        = .ok (writeKey workloadStoreW (endpointPath "h1" "c1" "e1")
            (Val.endpoint q4)) ∧
      remove_workload_from_group workloadStoreW "h1" "c1"
        = .ok (writeKey workloadStoreW (endpointPath "h1" "c1" "e1")
            (Val.endpoint q6)) ∧
      q4.profile_id = some "G" ∧ q6.profile_id = none ∧
      ∀ q ∈ [q4, q6],
        q.state = "active" ∧ q.mac = "mm" ∧
        q.name = ifPref ++ take11 "e1" ∧
        (∀ x, netsDenote q.ipv4_nets x = netsDenote [] x) ∧
        (∀ x, netsDenote q.ipv6_nets x = netsDenote [] x) ∧
        parseGw q.ipv4_gateway = .ok (gwFilter none) ∧
        parseGw q.ipv6_gateway = .ok (gwFilter none) :=
  workload_group_assignment_frame workloadStoreW "h1" "c1" "e1" "G"
    { state := "active", name := "eth0", mac := "mm", profile_id := none,
      ipv4_nets := [], ipv6_nets := [],
      ipv4_gateway := none, ipv6_gateway := none }
    { ep_id := "e1", state := "active", mac := "mm", profile_id := none,
      ipv4_nets := [], ipv6_nets := [],
      ipv4_gateway := none, ipv6_gateway := none }
    (by decide) (by decide) rfl rfl rfl

/-- Counterexample to C10 as stated: the payload written back by
`add_workload_to_group` has `name = "calie1"` (the derived interface
name) although the payload read had `name = "eth0"` — the operation does
not change only the `profile_id` field. -/
theorem workload_assignment_rewrites_name_cex :
    add_workload_to_group
        [⟨"/calico/host/h1/workload/docker/c1/endpoint/e1",
          some (Val.endpoint
            { state := "active", name := "eth0", mac := "mm", profile_id := none,
              ipv4_nets := [], ipv6_nets := [],
              ipv4_gateway := none, ipv6_gateway := none })⟩]
        "h1" "G" "c1"
      = .ok [⟨"/calico/host/h1/workload/docker/c1/endpoint/e1",
          some (Val.endpoint
            { state := "active", name := "calie1", mac := "mm",
              profile_id := some "G", ipv4_nets := [], ipv6_nets := [],
              ipv4_gateway := none, ipv6_gateway := none })⟩] ∧
    ("calie1" : String) ≠ "eth0" := ⟨rfl, by decide⟩


end Libcalico
